import Mathlib

/-!
# Tamagawa IMU serial driver: frame decoder and health checks

A shallow embedding of `src/tag_serial_driver.cpp`.

* A frame (`rbuf`, a `std::string`) is a list of bytes.
* C++ `int`/`unsigned int` arithmetic is carried out on `Int`/`Nat` with explicit
  reduction modulo `2 ^ 32`; `int16_t`/`int32_t` conversions reduce modulo `2 ^ 16`/`2 ^ 32`.
* Whether plain `char` is signed is a platform parameter (`charSigned`).
* `double` values live in an arbitrary field `α`; the `<cmath>` items the code uses
  (`M_PI`, `cos`, `sin`) are passed in a `CMath α` record.  Over `ℝ` this record is
  `⟨Real.pi, Real.cos, Real.sin⟩`.
* An out-of-range `rbuf[i]` is undefined behaviour; the model returns `none` there.
* The body of the `while` loop is a list of statements (`Stmt`), one per assignment of the
  source, run in order by `exec`; `loopBody` is one iteration and `run` a sequence of frames
  and diagnostics ticks.
-/

namespace Tamagawa

/-! ## Bytes, frames and C++ integer expressions -/

/-- One byte of the serial stream. -/
abbrev Byte := Fin 256

/-- The contents of `std::string rbuf`. -/
abbrev Frame := List Byte

/-- The expression `rbuf[i]` of `std::string`: the stored character when `i < size()`, the
terminating `'\0'` when `i = size()`, undefined (here `none`) beyond that. -/
def charAt (rbuf : Frame) (i : Nat) : Option Byte :=
  if i ≤ rbuf.length then some (rbuf.getD i 0) else none

/-- Integral promotion of a `char` to `int`; `charSigned` says whether plain `char` is signed
on the platform. -/
def promote (charSigned : Bool) (b : Byte) : Int :=
  if charSigned && decide (128 ≤ b.val) then (b.val : Int) - 256 else (b.val : Int)

/-- The value of a character literal as an `int`. -/
def charLit (c : Char) : Int := (c.toNat : Int)

/-- Reduction of a mathematical integer to the range of a 32-bit `int`. -/
def wrapInt32 (x : Int) : Int := (x + 2 ^ 31) % 2 ^ 32 - 2 ^ 31

/-- The expression `x << k` on `int`, with the two's-complement result that C++20 defines and
that compilers produce for earlier standards (also for negative `x`). -/
def shl (x : Int) (k : Nat) : Int := wrapInt32 (x * 2 ^ k)

/-- The bit pattern of an `int`, i.e. its conversion to `unsigned int`. -/
def toU32 (x : Int) : Nat := (x % 2 ^ 32).toNat

/-- The expression `x & mask` for an `int` `x` and a 32-bit mask constant. -/
def band (x : Int) (mask : Nat) : Nat := toU32 x &&& mask

/-- Conversion of a 32-bit pattern to `int16_t`. -/
def toInt16 (u : Nat) : Int :=
  if u % 2 ^ 16 < 2 ^ 15 then ((u % 2 ^ 16 : Nat) : Int) else ((u % 2 ^ 16 : Nat) : Int) - 2 ^ 16

/-- Conversion of a 32-bit pattern to `int32_t`. -/
def toInt32 (u : Nat) : Int :=
  if u % 2 ^ 32 < 2 ^ 31 then ((u % 2 ^ 32 : Nat) : Int) else ((u % 2 ^ 32 : Nat) : Int) - 2 ^ 32

/-- The 16-bit field expression
`((rbuf[i] << 8) & 0xFFFFFF00) | (rbuf[i+1] & 0x000000FF)` assigned to an `int16_t`. -/
def field16 (charSigned : Bool) (hi lo : Byte) : Int :=
  toInt16 (band (shl (promote charSigned hi) 8) 0xFFFFFF00 ||| band (promote charSigned lo) 0x000000FF)

/-- The 32-bit field expression
`((rbuf[i] << 24) & 0xFF000000) | ((rbuf[i+1] << 16) & 0x00FF0000) |
 ((rbuf[i+2] << 8) & 0x0000FF00) | (rbuf[i+3] & 0x000000FF)` assigned to an `int32_t`. -/
def field32 (charSigned : Bool) (b0 b1 b2 b3 : Byte) : Int :=
  toInt32 (band (shl (promote charSigned b0) 24) 0xFF000000
    ||| band (shl (promote charSigned b1) 16) 0x00FF0000
    ||| band (shl (promote charSigned b2) 8) 0x0000FF00
    ||| band (promote charSigned b3) 0x000000FF)

/-- The counter expression of the FOG branch,
`((rbuf[11] << 24) & 0xFF000000) | ((rbuf[12] << 16) & 0x00FF0000)`, stored in a `size_t`. -/
def counterFog (charSigned : Bool) (b11 b12 : Byte) : Nat :=
  band (shl (promote charSigned b11) 24) 0xFF000000
    ||| band (shl (promote charSigned b12) 16) 0x00FF0000

/-- The counter expression of the branch without FOG,
`((rbuf[11] << 8) & 0x0000FF00) | (rbuf[12] & 0x000000FF)`, stored in a `size_t`. -/
def counterNoFog (charSigned : Bool) (b11 b12 : Byte) : Nat :=
  band (shl (promote charSigned b11) 8) 0x0000FF00 ||| band (promote charSigned b12) 0x000000FF

/-! ## Messages and state -/

/-- Modelled from the spec: `ros::Time`, whose declaration is not under `src/`.  Host clock
values are exact nanosecond counts; a difference of two of them (`ros::Duration`) is an integer
number of nanoseconds. -/
abbrev Time := Nat

/-- The type `geometry_msgs::Vector3`. -/
structure Vector3 (α : Type) where
  x : α
  y : α
  z : α

/-- The type `geometry_msgs::Quaternion`. -/
structure Quaternion (α : Type) where
  x : α
  y : α
  z : α
  w : α

/-- The fields of `sensor_msgs::Imu` the driver touches. -/
structure Imu (α : Type) where
  stamp : Time
  frame_id : String
  orientation : Quaternion α
  angular_velocity : Vector3 α
  linear_acceleration : Vector3 α

/-- The items of `<cmath>` used by the driver and by the quaternion conversion. -/
structure CMath (α : Type) where
  pi : α
  cos : α → α
  sin : α → α

/-- The file-level variables `ready`, `imu_msg`, `imu_status` and the locals of `main` that live
across loop iterations. -/
structure State (α : Type) where
  ready : Bool
  imu_msg : Imu α
  imu_status : Int
  roll : α
  pitch : α
  yaw : α
  counter : Nat
  raw_data : Int
  raw_data_2 : Int

/-- The state when the `while` loop is entered (lines 52-58 and 138-150).  The locals `counter`,
`raw_data` and `raw_data_2` are declared without an initialiser; their indeterminate initial
values are the parameters `counter0`, `raw0` and `raw1`. -/
def initState {α : Type} [Field α] (M : CMath α) (counter0 : Nat) (raw0 raw1 : Int) : State α :=
  { ready := false
    imu_msg :=
      { stamp := 0
        frame_id := "imu"
        orientation := ⟨0, 0, 0, 1⟩
        angular_velocity := ⟨0, 0, 0⟩
        linear_acceleration := ⟨0, 0, 0⟩ }
    imu_status := 0
    roll := M.pi / 4
    pitch := M.pi / 6
    yaw := M.pi / 3
    counter := counter0
    raw_data := raw0
    raw_data_2 := raw1 }

/-! ## Frame validation -/

/-- Short-circuit `&&` over possibly undefined operands: the right operand is evaluated only
when the left one is `true`. -/
def cAnd (a b : Option Bool) : Option Bool :=
  match a with
  | some true => b
  | some false => some false
  | none => none

/-- The comparison `rbuf[i] == c`. -/
def charEq (charSigned : Bool) (rbuf : Frame) (i : Nat) (c : Char) : Option Bool :=
  (charAt rbuf i).map fun b => decide (promote charSigned b = charLit c)

/-- The condition of line 159:
`rbuf[5] == 'B' && rbuf[6] == 'I' && rbuf[7] == 'N' && rbuf[8] == ','`. -/
def tagCheck (charSigned : Bool) (rbuf : Frame) : Option Bool :=
  cAnd (cAnd (cAnd (charEq charSigned rbuf 5 'B') (charEq charSigned rbuf 6 'I'))
    (charEq charSigned rbuf 7 'N')) (charEq charSigned rbuf 8 ',')

/-! ## Scale formulas -/

section Decode

variable {α : Type} [Field α]

/-- The expression `raw_data * (200 / pow(2, 15)) * M_PI / 180` (angular rate, 16-bit field). -/
def gyroScale16 (M : CMath α) (raw_data : Int) : α :=
  (raw_data : α) * (200 / 2 ^ 15) * M.pi / 180

/-- The expression `raw_data_2 * (200 / pow(2, 31)) * M_PI / 180` (angular rate, 32-bit field). -/
def gyroScale32 (M : CMath α) (raw_data_2 : Int) : α :=
  (raw_data_2 : α) * (200 / 2 ^ 31) * M.pi / 180

/-- The expression `raw_data * (100 / pow(2, 15))` (linear acceleration). -/
def accScale (raw_data : Int) : α :=
  (raw_data : α) * (100 / 2 ^ 15)

/-- The expression `raw_data * (180 / pow(2, 15)) * M_PI / 180.0` (roll). -/
def angleScale (M : CMath α) (raw_data : Int) : α :=
  (raw_data : α) * (180 / 2 ^ 15) * M.pi / 180

/-- The expression `- raw_data * (180 / pow(2, 15)) * M_PI / 180.0` (pitch and yaw): the unary
minus applies to `raw_data` promoted to `int`, before the conversion to `double`. -/
def negAngleScale (M : CMath α) (raw_data : Int) : α :=
  ((-raw_data : Int) : α) * (180 / 2 ^ 15) * M.pi / 180

/-! ## Orientation conversion -/

/-- Quaternion product in `(x, y, z, w)` layout. -/
def Quaternion.mul (p q : Quaternion α) : Quaternion α :=
  { x := p.w * q.x + p.x * q.w + p.y * q.z - p.z * q.y
    y := p.w * q.y + p.y * q.w + p.z * q.x - p.x * q.z
    z := p.w * q.z + p.z * q.w + p.x * q.y - p.y * q.x
    w := p.w * q.w - p.x * q.x - p.y * q.y - p.z * q.z }

/-- Rotation about the body X axis by `roll`, half-angle form. -/
def qx (M : CMath α) (roll : α) : Quaternion α := ⟨M.sin (roll / 2), 0, 0, M.cos (roll / 2)⟩

/-- Rotation about the body Y axis by `pitch`, half-angle form. -/
def qy (M : CMath α) (pitch : α) : Quaternion α := ⟨0, M.sin (pitch / 2), 0, M.cos (pitch / 2)⟩

/-- Rotation about the body Z axis by `yaw`, half-angle form. -/
def qz (M : CMath α) (yaw : α) : Quaternion α := ⟨0, 0, M.sin (yaw / 2), M.cos (yaw / 2)⟩

/-- Modelled from the spec: `tf2::Quaternion::setRPY`, whose body is not under `src/`.  The spec
gives it as the half-angle product formula `q = qz(yaw) * qy(pitch) * qx(roll)`. -/
def setRPY (M : CMath α) (roll pitch yaw : α) : Quaternion α :=
  Quaternion.mul (Quaternion.mul (qz M yaw) (qy M pitch)) (qx M roll)

/-! ## The read/decode loop -/

/-- A statement of the loop body: a state transformer, `none` for undefined behaviour. -/
abbrev Stmt (α : Type) := State α → Option (State α)

/-- Sequential execution of statements. -/
def exec : List (Stmt α) → Stmt α
  | [], st => some st
  | s :: rest, st =>
    match s st with
    | none => none
    | some st1 => exec rest st1

/-- A statement that reads no frame byte. -/
def assign (f : State α → State α) : Stmt α := fun st => some (f st)

/-- The statement `counter = ((rbuf[11] << 24) & 0xFF000000) | ((rbuf[12] << 16) & 0x00FF0000);`
(line 165). -/
def assignCounterFog (charSigned : Bool) (rbuf : Frame) : Stmt α := fun st =>
  (charAt rbuf 11).bind fun b11 => (charAt rbuf 12).map fun b12 =>
    { st with counter := counterFog charSigned b11 b12 }

/-- The statement `counter = ((rbuf[11] << 8) & 0x0000FF00) | (rbuf[12] & 0x000000FF);`
(line 206). -/
def assignCounterNoFog (charSigned : Bool) (rbuf : Frame) : Stmt α := fun st =>
  (charAt rbuf 11).bind fun b11 => (charAt rbuf 12).map fun b12 =>
    { st with counter := counterNoFog charSigned b11 b12 }

/-- The statement `imu_status = ((rbuf[13] << 8) & 0xFFFFFF00) | (rbuf[14] & 0x000000FF);`
(lines 166 and 207). -/
def assignStatus (charSigned : Bool) (rbuf : Frame) : Stmt α := fun st =>
  (charAt rbuf 13).bind fun b13 => (charAt rbuf 14).map fun b14 =>
    { st with imu_status := field16 charSigned b13 b14 }

/-- The statement `raw_data = ((rbuf[i] << 8) & 0xFFFFFF00) | (rbuf[i+1] & 0x000000FF);`. -/
def assignRaw (charSigned : Bool) (rbuf : Frame) (i : Nat) : Stmt α := fun st =>
  (charAt rbuf i).bind fun hi => (charAt rbuf (i + 1)).map fun lo =>
    { st with raw_data := field16 charSigned hi lo }

/-- The statement `raw_data_2 = ((rbuf[i] << 24) & 0xFF000000) | ((rbuf[i+1] << 16) & 0x00FF0000)
| ((rbuf[i+2] << 8) & 0x0000FF00) | (rbuf[i+3] & 0x000000FF);` (lines 173-174, `i = 19`). -/
def assignRaw2 (charSigned : Bool) (rbuf : Frame) (i : Nat) : Stmt α := fun st =>
  (charAt rbuf i).bind fun b0 => (charAt rbuf (i + 1)).bind fun b1 =>
    (charAt rbuf (i + 2)).bind fun b2 => (charAt rbuf (i + 3)).map fun b3 =>
      { st with raw_data_2 := field32 charSigned b0 b1 b2 b3 }

/-- Assignment to `imu_msg.angular_velocity.x`. -/
def setGyroX (v : State α → α) : Stmt α := assign fun st =>
  { st with imu_msg := { st.imu_msg with
      angular_velocity := { st.imu_msg.angular_velocity with x := v st } } }

/-- Assignment to `imu_msg.angular_velocity.y`. -/
def setGyroY (v : State α → α) : Stmt α := assign fun st =>
  { st with imu_msg := { st.imu_msg with
      angular_velocity := { st.imu_msg.angular_velocity with y := v st } } }

/-- Assignment to `imu_msg.angular_velocity.z`. -/
def setGyroZ (v : State α → α) : Stmt α := assign fun st =>
  { st with imu_msg := { st.imu_msg with
      angular_velocity := { st.imu_msg.angular_velocity with z := v st } } }

/-- Assignment to `imu_msg.linear_acceleration.x`. -/
def setAccX (v : State α → α) : Stmt α := assign fun st =>
  { st with imu_msg := { st.imu_msg with
      linear_acceleration := { st.imu_msg.linear_acceleration with x := v st } } }

/-- Assignment to `imu_msg.linear_acceleration.y`. -/
def setAccY (v : State α → α) : Stmt α := assign fun st =>
  { st with imu_msg := { st.imu_msg with
      linear_acceleration := { st.imu_msg.linear_acceleration with y := v st } } }

/-- Assignment to `imu_msg.linear_acceleration.z`. -/
def setAccZ (v : State α → α) : Stmt α := assign fun st =>
  { st with imu_msg := { st.imu_msg with
      linear_acceleration := { st.imu_msg.linear_acceleration with z := v st } } }

/-- Lines 193-199: `quaternion.setRPY(roll, pitch, yaw)` and the four assignments to
`imu_msg.orientation`. -/
def setOrientation (M : CMath α) : Stmt α := assign fun st =>
  let quaternion := setRPY M st.roll st.pitch st.yaw
  { st with imu_msg := { st.imu_msg with
      orientation := ⟨quaternion.x, quaternion.y, quaternion.z, quaternion.w⟩ } }

/-- Lines 165-199: the statements of the branch `if (use_fog)` before `pub.publish`. -/
def decodeFog (M : CMath α) (charSigned : Bool) (rbuf : Frame) : Stmt α :=
  exec
    [ assignCounterFog charSigned rbuf,
      assignStatus charSigned rbuf,
      assignRaw charSigned rbuf 15,
      setGyroX fun st => gyroScale16 M st.raw_data,
      assignRaw charSigned rbuf 17,
      setGyroY fun st => gyroScale16 M st.raw_data,
      assignRaw2 charSigned rbuf 19,
      setGyroZ fun st => gyroScale32 M st.raw_data_2,
      assignRaw charSigned rbuf 23,
      setAccX fun st => accScale st.raw_data,
      assignRaw charSigned rbuf 25,
      setAccY fun st => accScale st.raw_data,
      assignRaw charSigned rbuf 27,
      setAccZ fun st => accScale st.raw_data,
      assignRaw charSigned rbuf 29,
      assign fun st => { st with roll := angleScale M st.raw_data },
      assignRaw charSigned rbuf 31,
      assign fun st => { st with pitch := negAngleScale M st.raw_data },
      assignRaw charSigned rbuf 33,
      assign fun st => { st with yaw := negAngleScale M st.raw_data },
      setOrientation M ]

/-- Lines 206-222: the statements of the branch `else` before `pub.publish`. -/
def decodeNoFog (M : CMath α) (charSigned : Bool) (rbuf : Frame) : Stmt α :=
  exec
    [ assignCounterNoFog charSigned rbuf,
      assignStatus charSigned rbuf,
      assignRaw charSigned rbuf 15,
      setGyroX fun st => gyroScale16 M st.raw_data,
      assignRaw charSigned rbuf 17,
      setGyroY fun st => gyroScale16 M st.raw_data,
      assignRaw charSigned rbuf 19,
      setGyroZ fun st => gyroScale16 M st.raw_data,
      assignRaw charSigned rbuf 21,
      setAccX fun st => accScale st.raw_data,
      assignRaw charSigned rbuf 23,
      setAccY fun st => accScale st.raw_data,
      assignRaw charSigned rbuf 25,
      setAccZ fun st => accScale st.raw_data ]

/-- One iteration of the `while` loop (lines 155-227) on the frame `rbuf` returned by
`read_until`, with `now` the value `ros::Time::now()` returns on line 161.  The result is the new
state and the list of records handed to `pub.publish`; `none` stands for undefined behaviour. -/
def loopBody (M : CMath α) (charSigned use_fog : Bool) (now : Time) (st : State α)
    (rbuf : Frame) : Option (State α × List (Imu α)) :=
  match tagCheck charSigned rbuf with
  | none => none
  | some false => some (st, [])
  | some true =>
    let st1 : State α := { st with imu_msg := { st.imu_msg with stamp := now } }
    match (if use_fog then decodeFog M charSigned rbuf st1
        else decodeNoFog M charSigned rbuf st1) with
    | none => none
    | some st2 => some ({ st2 with ready := true }, [st2.imu_msg])

/-! ## Health checks -/

/-- A call `stat.summary(level, msg)`. -/
structure Summary where
  level : Nat
  msg : String
deriving DecidableEq

/-- The constant `diagnostic_msgs::DiagnosticStatus::OK`. -/
def OK : Nat := 0

/-- The constant `diagnostic_msgs::DiagnosticStatus::ERROR`. -/
def ERROR : Nat := 2

/-- The function `check_bit_error` (lines 63-75); it reads the file-level `imu_status`. -/
def check_bit_error (st : State α) : Summary :=
  if st.imu_status >>> (15 : Nat) ≠ 0 then ⟨ERROR, "Built-In Test error"⟩ else ⟨OK, "OK"⟩

/-- The function `check_connection` (lines 77-90); `now` is the value of `ros::Time::now()` and
`ros::Duration(1.0)` is `10 ^ 9` nanoseconds. -/
def check_connection (now : Time) (st : State α) : Summary :=
  if (now : Int) - (st.imu_msg.stamp : Int) > 10 ^ 9 then ⟨ERROR, "Message timeout"⟩
  else ⟨OK, "OK"⟩

/-- The function `diagnostic_timer_callback` (lines 92-99).  `force_update` runs the two tasks
registered on lines 114-115 in order; the result is the new state and the named reports. -/
def diagnostic_timer_callback (now : Time) (st : State α) :
    State α × List (String × Summary) :=
  if st.ready then
    ({ st with ready := false },
      [("imu_bit_error", check_bit_error st), ("imu_connection", check_connection now st)])
  else (st, [])

/-! ## Runs -/

/-- What can happen to the driver: a frame arrives or the diagnostics timer fires. -/
inductive Event where
  | frame (now : Time) (rbuf : Frame)
  | tick (now : Time)

/-- Everything the driver has sent out. -/
structure Output (α : Type) where
  published : List (Imu α)
  reports : List (String × Summary)

/-- The effect of one event. -/
def step (M : CMath α) (charSigned use_fog : Bool) (st : State α) :
    Event → Option (State α × Output α)
  | Event.frame now rbuf =>
    (loopBody M charSigned use_fog now st rbuf).map fun r => (r.1, ⟨r.2, []⟩)
  | Event.tick now =>
    let r := diagnostic_timer_callback now st
    some (r.1, ⟨[], r.2⟩)

/-- The effect of a sequence of events, outputs accumulated in order. -/
def run (M : CMath α) (charSigned use_fog : Bool) (st : State α) :
    List Event → Option (State α × Output α)
  | [] => some (st, ⟨[], []⟩)
  | e :: es =>
    match step M charSigned use_fog st e with
    | none => none
    | some (st1, o1) =>
      match run M charSigned use_fog st1 es with
      | none => none
      | some (st2, o2) => some (st2, ⟨o1.published ++ o2.published, o1.reports ++ o2.reports⟩)

end Decode

/-! ## Field values and closed forms -/

/-- The two's-complement big-endian 16-bit integer formed from two bytes taken as unsigned. -/
def s16 (hi lo : Byte) : Int :=
  if hi.val * 256 + lo.val < 32768 then ((hi.val * 256 + lo.val : Nat) : Int)
  else ((hi.val * 256 + lo.val : Nat) : Int) - 65536

/-- The two's-complement big-endian 32-bit integer formed from four bytes taken as unsigned,
most significant first. -/
def s32 (b0 b1 b2 b3 : Byte) : Int :=
  if b0.val * 2 ^ 24 + b1.val * 2 ^ 16 + b2.val * 2 ^ 8 + b3.val < 2 ^ 31 then
    ((b0.val * 2 ^ 24 + b1.val * 2 ^ 16 + b2.val * 2 ^ 8 + b3.val : Nat) : Int)
  else ((b0.val * 2 ^ 24 + b1.val * 2 ^ 16 + b2.val * 2 ^ 8 + b3.val : Nat) : Int) - 2 ^ 32

/-- The byte of the frame at offset `k` (`0` past the end). -/
def byteAt (rbuf : Frame) (k : Nat) : Byte := rbuf.getD k 0

/-- The signed big-endian 16-bit field of the frame at offset `k`. -/
def s16At (rbuf : Frame) (k : Nat) : Int := s16 (byteAt rbuf k) (byteAt rbuf (k + 1))

/-- The signed big-endian 32-bit field of the frame at offset `k`. -/
def s32At (rbuf : Frame) (k : Nat) : Int :=
  s32 (byteAt rbuf k) (byteAt rbuf (k + 1)) (byteAt rbuf (k + 2)) (byteAt rbuf (k + 3))

/-- Closed form of the state after the statements of the branch without FOG. -/
def noFogClosed {α : Type} [Field α] (M : CMath α) (rbuf : Frame) (st : State α) : State α :=
  { ready := st.ready
    imu_msg :=
      { stamp := st.imu_msg.stamp
        frame_id := st.imu_msg.frame_id
        orientation := st.imu_msg.orientation
        angular_velocity :=
          ⟨gyroScale16 M (s16At rbuf 15), gyroScale16 M (s16At rbuf 17),
            gyroScale16 M (s16At rbuf 19)⟩
        linear_acceleration :=
          ⟨accScale (s16At rbuf 21), accScale (s16At rbuf 23), accScale (s16At rbuf 25)⟩ }
    imu_status := s16At rbuf 13
    roll := st.roll
    pitch := st.pitch
    yaw := st.yaw
    counter := (byteAt rbuf 11).val * 2 ^ 8 + (byteAt rbuf 12).val
    raw_data := s16At rbuf 25
    raw_data_2 := st.raw_data_2 }

/-- Closed form of the state after the statements of the FOG branch. -/
def fogClosed {α : Type} [Field α] (M : CMath α) (rbuf : Frame) (st : State α) : State α :=
  { ready := st.ready
    imu_msg :=
      { stamp := st.imu_msg.stamp
        frame_id := st.imu_msg.frame_id
        orientation :=
          setRPY M (angleScale M (s16At rbuf 29)) (negAngleScale M (s16At rbuf 31))
            (negAngleScale M (s16At rbuf 33))
        angular_velocity :=
          ⟨gyroScale16 M (s16At rbuf 15), gyroScale16 M (s16At rbuf 17),
            gyroScale32 M (s32At rbuf 19)⟩
        linear_acceleration :=
          ⟨accScale (s16At rbuf 23), accScale (s16At rbuf 25), accScale (s16At rbuf 27)⟩ }
    imu_status := s16At rbuf 13
    roll := angleScale M (s16At rbuf 29)
    pitch := negAngleScale M (s16At rbuf 31)
    yaw := negAngleScale M (s16At rbuf 33)
    counter := (byteAt rbuf 11).val * 2 ^ 24 + (byteAt rbuf 12).val * 2 ^ 16
    raw_data := s16At rbuf 33
    raw_data_2 := s32At rbuf 19 }

/-- The frame carries the ASCII literal `"BIN,"` at offsets 5 to 8. -/
def hasBinTag (rbuf : Frame) : Prop :=
  (byteAt rbuf 5).val = 'B'.toNat ∧ (byteAt rbuf 6).val = 'I'.toNat ∧
    (byteAt rbuf 7).val = 'N'.toNat ∧ (byteAt rbuf 8).val = ','.toNat

instance (rbuf : Frame) : Decidable (hasBinTag rbuf) := by
  unfold hasBinTag; infer_instance

/-- A frame with the line `$TSC,ASC,50` followed by CR LF: the tag at offset 5 is `ASC,`. -/
def ascFrame : Frame :=
  [36, 84, 83, 67, 44, 65, 83, 67, 44, 53, 48, 13, 10]

/-- A 27-byte frame of the variant without FOG: `$TSC,BIN,` then two filler bytes, status
`0x0000`, angular rates `0x4000`, `0xC000`, `0x0001`, accelerations `0x7FFF`, `0x8000`, `0xFFFF`. -/
def stdFrame : Frame :=
  [36, 84, 83, 67, 44, 66, 73, 78, 44, 0, 0, 0, 7, 0, 0,
   0x40, 0x00, 0xC0, 0x00, 0x00, 0x01, 0x7F, 0xFF, 0x80, 0x00, 0xFF, 0xFF]


/-- A 35-byte frame of the FOG variant: `$TSC,BIN,` then two filler bytes, bytes 11-12 `0x00 0x07`,
status `0x8001`, angular rates `0x4000`, `0xC000`, `0x40000000`, accelerations `0x7FFF`, `0x8000`,
`0xFFFF`, roll `0x2000`, pitch `0x8000`, yaw `0x0000`. -/
def fogFrame : Frame :=
  [36, 84, 83, 67, 44, 66, 73, 78, 44, 0, 0, 0, 7, 0x80, 0x01,
   0x40, 0x00, 0xC0, 0x00, 0x40, 0x00, 0x00, 0x00, 0x7F, 0xFF, 0x80, 0x00, 0xFF, 0xFF,
   0x20, 0x00, 0x80, 0x00, 0x00, 0x00]

/-- A 35-byte frame of the FOG variant whose three attitude fields are zero. -/
def fogLevelFrame : Frame :=
  [36, 84, 83, 67, 44, 66, 73, 78, 44, 0, 0, 0, 7, 0x00, 0x01,
   0x40, 0x00, 0xC0, 0x00, 0x40, 0x00, 0x00, 0x00, 0x7F, 0xFF, 0x80, 0x00, 0xFF, 0xFF,
   0x00, 0x00, 0x00, 0x00, 0x00, 0x00]


/-- The frame is long enough for every access the iteration makes to lie inside it: 9 bytes for
the tag check and, when the tag is present, 35 bytes with FOG and 27 bytes without. -/
def readable (use_fog : Bool) (rbuf : Frame) : Prop :=
  9 ≤ rbuf.length ∧ (hasBinTag rbuf → (if use_fog then 35 else 27) ≤ rbuf.length)

instance (use_fog : Bool) (rbuf : Frame) : Decidable (readable use_fog rbuf) := by
  unfold readable; infer_instance

/-- Every frame of the event sequence is `readable`. -/
def readableEvents (use_fog : Bool) : List Event → Prop
  | [] => True
  | Event.frame _ rbuf :: es => readable use_fog rbuf ∧ readableEvents use_fog es
  | Event.tick _ :: es => readableEvents use_fog es


/-- A statement keeps the orientation of `imu_msg`. -/
def KeepsOrientation {α : Type} (s : Stmt α) : Prop :=
  ∀ st st1, s st = some st1 → st1.imu_msg.orientation = st.imu_msg.orientation


/-- The line `$TSC,BIN,` followed by LF only: 10 bytes, tag present, no payload. -/
def shortBinFrame : Frame := [36, 84, 83, 67, 44, 66, 73, 78, 44, 10]

/-- The first 26 bytes of `stdFrame`: one byte short of the layout without FOG. -/
def stdFrame26 : Frame :=
  [36, 84, 83, 67, 44, 66, 73, 78, 44, 0, 0, 0, 7, 0, 0,
   0x40, 0x00, 0xC0, 0x00, 0x00, 0x01, 0x7F, 0xFF, 0x80, 0x00, 0xFF]

/-- An empty line: CR LF. -/
def crlfFrame : Frame := [13, 10]


/-- Sign extension of the low `w` bits of `u`, read as a two's-complement integer. -/
def signExtend (w : Nat) (u : Nat) : Int :=
  if u % 2 ^ w < 2 ^ (w - 1) then ((u % 2 ^ w : Nat) : Int) else ((u % 2 ^ w : Nat) : Int) - 2 ^ w

/-- The 16-bit extraction as the specification words it: `(byte[offset] << 8) | byte[offset+1]`
on bytes taken as unsigned 8-bit values, sign-extended from 16 bits. -/
def extractSpec16 (hi lo : Byte) : Int :=
  signExtend 16 ((hi.val <<< 8) ||| lo.val)

/-- The 32-bit extraction as the specification words it: four consecutive bytes, taken as
unsigned 8-bit values, combined most-significant-first and sign-extended from 32 bits. -/
def extractSpec32 (b0 b1 b2 b3 : Byte) : Int :=
  signExtend 32 ((b0.val <<< 24) ||| (b1.val <<< 16) ||| (b2.val <<< 8) ||| b3.val)


/-! ## Round trip of the scale formulas: field table and encoder -/

/-- The inverse of a scale formula: `v / s` rounded to an integer in `[minRaw, maxRaw]`. -/
def quantize {α : Type} [LinearOrderedField α] [FloorRing α] (s v : α) (minRaw maxRaw : Int) : Int :=
  max minRaw (min maxRaw (round (v / s)))


/-- The byte with value `n mod 256`. -/
def byteOf (n : Nat) : Byte := ⟨n % 256, Nat.mod_lt _ (by decide)⟩

/-- The frame holds the big-endian two's-complement 16-bit encoding of `r` at offset `k`. -/
def carries16 (rbuf : Frame) (k : Nat) (r : Int) : Prop :=
  byteAt rbuf k = byteOf ((r % 2 ^ 16).toNat / 2 ^ 8) ∧
    byteAt rbuf (k + 1) = byteOf ((r % 2 ^ 16).toNat)

/-- The frame holds the big-endian two's-complement 32-bit encoding of `r` at offset `k`. -/
def carries32 (rbuf : Frame) (k : Nat) (r : Int) : Prop :=
  byteAt rbuf k = byteOf ((r % 2 ^ 32).toNat / 2 ^ 24) ∧
    byteAt rbuf (k + 1) = byteOf ((r % 2 ^ 32).toNat / 2 ^ 16) ∧
    byteAt rbuf (k + 2) = byteOf ((r % 2 ^ 32).toNat / 2 ^ 8) ∧
    byteAt rbuf (k + 3) = byteOf ((r % 2 ^ 32).toNat)

/-- The frame holds the big-endian two's-complement encoding of `r`, `w` bits wide, at `k`. -/
def carries (rbuf : Frame) (k w : Nat) (r : Int) : Prop :=
  if w = 32 then carries32 rbuf k r else carries16 rbuf k r

instance (rbuf : Frame) (k w : Nat) (r : Int) : Decidable (carries rbuf k w r) := by
  unfold carries carries32 carries16; infer_instance

/-- The decoded physical quantities. -/
inductive Channel where
  | gyroX | gyroY | gyroZ | accX | accY | accZ | roll | pitch | yaw

/-- Offset of the raw field of a channel in the frame (`none`: not decoded in this variant). -/
def Channel.offset (use_fog : Bool) : Channel → Option Nat
  | Channel.gyroX => some 15
  | Channel.gyroY => some 17
  | Channel.gyroZ => some 19
  | Channel.accX => some (if use_fog then 23 else 21)
  | Channel.accY => some (if use_fog then 25 else 23)
  | Channel.accZ => some (if use_fog then 27 else 25)
  | Channel.roll => if use_fog then some 29 else none
  | Channel.pitch => if use_fog then some 31 else none
  | Channel.yaw => if use_fog then some 33 else none

/-- Width in bits of the raw field of a channel. -/
def Channel.width (use_fog : Bool) : Channel → Nat
  | Channel.gyroZ => if use_fog then 32 else 16
  | _ => 16

/-- Smallest raw value of a channel. -/
def Channel.minRaw (use_fog : Bool) (ch : Channel) : Int :=
  if ch.width use_fog = 32 then -2147483648 else -32768

/-- Largest raw value of a channel. -/
def Channel.maxRaw (use_fog : Bool) (ch : Channel) : Int :=
  if ch.width use_fog = 32 then 2147483647 else 32767

/-- LSB scale of a channel. -/
def Channel.scale {α : Type} [Field α] (M : CMath α) (use_fog : Bool) : Channel → α
  | Channel.gyroX => (200 / 2 ^ 15) * M.pi / 180
  | Channel.gyroY => (200 / 2 ^ 15) * M.pi / 180
  | Channel.gyroZ => if use_fog then (200 / 2 ^ 31) * M.pi / 180 else (200 / 2 ^ 15) * M.pi / 180
  | Channel.accX => 100 / 2 ^ 15
  | Channel.accY => 100 / 2 ^ 15
  | Channel.accZ => 100 / 2 ^ 15
  | Channel.roll => (180 / 2 ^ 15) * M.pi / 180
  | Channel.pitch => (180 / 2 ^ 15) * M.pi / 180
  | Channel.yaw => (180 / 2 ^ 15) * M.pi / 180

/-- Whether the formula of a channel negates the raw value (pitch and yaw). -/
def Channel.negated : Channel → Bool
  | Channel.pitch => true
  | Channel.yaw => true
  | _ => false

/-- The decoded value of a channel in the state. -/
def Channel.value {α : Type} (st : State α) : Channel → α
  | Channel.gyroX => st.imu_msg.angular_velocity.x
  | Channel.gyroY => st.imu_msg.angular_velocity.y
  | Channel.gyroZ => st.imu_msg.angular_velocity.z
  | Channel.accX => st.imu_msg.linear_acceleration.x
  | Channel.accY => st.imu_msg.linear_acceleration.y
  | Channel.accZ => st.imu_msg.linear_acceleration.z
  | Channel.roll => st.roll
  | Channel.pitch => st.pitch
  | Channel.yaw => st.yaw

/-! ## Integer field expressions -/

set_option maxRecDepth 100000 in
theorem band_shl8_hi (cs : Bool) (b : Byte) :
    band (shl (promote cs b) 8) 0xFFFFFF00
      = 2 ^ 8 * ((if cs && decide (128 ≤ b.val) then 0xFFFF00 else 0) + b.val) := by
  revert cs b; decide

set_option maxRecDepth 100000 in
theorem band_lo (cs : Bool) (b : Byte) : band (promote cs b) 0x000000FF = b.val := by
  revert cs b; decide

set_option maxRecDepth 100000 in
theorem band_shl24 (cs : Bool) (b : Byte) :
    band (shl (promote cs b) 24) 0xFF000000 = 2 ^ 24 * b.val := by
  revert cs b; decide

set_option maxRecDepth 100000 in
theorem band_shl16 (cs : Bool) (b : Byte) :
    band (shl (promote cs b) 16) 0x00FF0000 = 2 ^ 16 * b.val := by
  revert cs b; decide

set_option maxRecDepth 100000 in
theorem band_shl8 (cs : Bool) (b : Byte) :
    band (shl (promote cs b) 8) 0x0000FF00 = 2 ^ 8 * b.val := by
  revert cs b; decide

theorem field16_eq_s16 (cs : Bool) (hi lo : Byte) : field16 cs hi lo = s16 hi lo := by
  unfold field16 s16
  rw [band_shl8_hi, band_lo, ← Nat.mul_add_lt_is_or lo.isLt]
  unfold toInt16
  have h1 := hi.isLt
  have h2 := lo.isLt
  split_ifs <;> omega

theorem or4_eq_add (b0 b1 b2 b3 : Byte) :
    2 ^ 24 * b0.val ||| 2 ^ 16 * b1.val ||| 2 ^ 8 * b2.val ||| b3.val
      = b0.val * 2 ^ 24 + b1.val * 2 ^ 16 + b2.val * 2 ^ 8 + b3.val := by
  have h1 := b1.isLt
  have h2 := b2.isLt
  have h3 := b3.isLt
  have e1 : 2 ^ 24 * b0.val ||| 2 ^ 16 * b1.val = 2 ^ 16 * (2 ^ 8 * b0.val + b1.val) := by
    rw [← Nat.mul_add_lt_is_or (by omega : 2 ^ 16 * b1.val < 2 ^ 24)]; omega
  have e2 : 2 ^ 16 * (2 ^ 8 * b0.val + b1.val) ||| 2 ^ 8 * b2.val
      = 2 ^ 8 * (2 ^ 8 * (2 ^ 8 * b0.val + b1.val) + b2.val) := by
    rw [← Nat.mul_add_lt_is_or (by omega : 2 ^ 8 * b2.val < 2 ^ 16)]; omega
  rw [e1, e2, ← Nat.mul_add_lt_is_or (by omega : b3.val < 2 ^ 8)]
  omega

theorem field32_eq_s32 (cs : Bool) (b0 b1 b2 b3 : Byte) :
    field32 cs b0 b1 b2 b3 = s32 b0 b1 b2 b3 := by
  unfold field32 s32
  rw [band_shl24, band_shl16, band_shl8, band_lo, or4_eq_add]
  unfold toInt32
  have h0 := b0.isLt
  have h1 := b1.isLt
  have h2 := b2.isLt
  have h3 := b3.isLt
  split_ifs <;> omega

theorem counterFog_eq (cs : Bool) (b11 b12 : Byte) :
    counterFog cs b11 b12 = b11.val * 2 ^ 24 + b12.val * 2 ^ 16 := by
  unfold counterFog
  have h1 := b12.isLt
  rw [band_shl24, band_shl16, ← Nat.mul_add_lt_is_or (by omega : 2 ^ 16 * b12.val < 2 ^ 24)]
  omega

theorem counterNoFog_eq (cs : Bool) (b11 b12 : Byte) :
    counterNoFog cs b11 b12 = b11.val * 2 ^ 8 + b12.val := by
  unfold counterNoFog
  rw [band_shl8, band_lo, ← Nat.mul_add_lt_is_or b12.isLt]
  omega

/-! ## Closed forms of the two branches -/

theorem charAt_of_le {rbuf : Frame} {i : Nat} (h : i ≤ rbuf.length) :
    charAt rbuf i = some (byteAt rbuf i) := by
  simp [charAt, byteAt, h]

theorem assignRaw_eq (cs : Bool) {rbuf : Frame} {i : Nat} (h : i + 1 ≤ rbuf.length)
    {α : Type} (st : State α) :
    assignRaw cs rbuf i st = some { st with raw_data := s16At rbuf i } := by
  simp [assignRaw, charAt_of_le h, charAt_of_le (Nat.le_of_succ_le h), field16_eq_s16, s16At]

theorem assignRaw2_eq (cs : Bool) {rbuf : Frame} {i : Nat} (h : i + 3 ≤ rbuf.length)
    {α : Type} (st : State α) :
    assignRaw2 cs rbuf i st = some { st with raw_data_2 := s32At rbuf i } := by
  simp [assignRaw2, charAt_of_le h, charAt_of_le (by omega : i ≤ rbuf.length),
    charAt_of_le (by omega : i + 1 ≤ rbuf.length), charAt_of_le (by omega : i + 2 ≤ rbuf.length),
    field32_eq_s32, s32At]

theorem assignStatus_eq (cs : Bool) {rbuf : Frame} (h : 14 ≤ rbuf.length) {α : Type} (st : State α) :
    assignStatus cs rbuf st = some { st with imu_status := s16At rbuf 13 } := by
  simp [assignStatus, charAt_of_le h, charAt_of_le (by omega : 13 ≤ rbuf.length),
    field16_eq_s16, s16At]

theorem assignCounterFog_eq (cs : Bool) {rbuf : Frame} (h : 12 ≤ rbuf.length) {α : Type} (st : State α) :
    assignCounterFog cs rbuf st
      = some { st with counter := (byteAt rbuf 11).val * 2 ^ 24 + (byteAt rbuf 12).val * 2 ^ 16 } := by
  simp [assignCounterFog, charAt_of_le h, charAt_of_le (by omega : 11 ≤ rbuf.length),
    counterFog_eq]

theorem assignCounterNoFog_eq (cs : Bool) {rbuf : Frame} (h : 12 ≤ rbuf.length) {α : Type} (st : State α) :
    assignCounterNoFog cs rbuf st
      = some { st with counter := (byteAt rbuf 11).val * 2 ^ 8 + (byteAt rbuf 12).val } := by
  simp [assignCounterNoFog, charAt_of_le h, charAt_of_le (by omega : 11 ≤ rbuf.length),
    counterNoFog_eq]

theorem decodeNoFog_eq {α : Type} [Field α] (M : CMath α) (cs : Bool) {rbuf : Frame} (h : 26 ≤ rbuf.length)
    (st : State α) : decodeNoFog M cs rbuf st = some (noFogClosed M rbuf st) := by
  simp [decodeNoFog, exec, assign, setGyroX, setGyroY, setGyroZ, setAccX, setAccY, setAccZ,
    assignCounterNoFog_eq cs (by omega : 12 ≤ rbuf.length),
    assignStatus_eq cs (by omega : 14 ≤ rbuf.length),
    assignRaw_eq cs (by omega : 15 + 1 ≤ rbuf.length),
    assignRaw_eq cs (by omega : 17 + 1 ≤ rbuf.length),
    assignRaw_eq cs (by omega : 19 + 1 ≤ rbuf.length),
    assignRaw_eq cs (by omega : 21 + 1 ≤ rbuf.length),
    assignRaw_eq cs (by omega : 23 + 1 ≤ rbuf.length),
    assignRaw_eq cs (by omega : 25 + 1 ≤ rbuf.length), noFogClosed]

theorem decodeFog_eq {α : Type} [Field α] (M : CMath α) (cs : Bool) {rbuf : Frame} (h : 34 ≤ rbuf.length)
    (st : State α) : decodeFog M cs rbuf st = some (fogClosed M rbuf st) := by
  simp [decodeFog, exec, assign, setGyroX, setGyroY, setGyroZ, setAccX, setAccY, setAccZ,
    setOrientation,
    assignCounterFog_eq cs (by omega : 12 ≤ rbuf.length),
    assignStatus_eq cs (by omega : 14 ≤ rbuf.length),
    assignRaw_eq cs (by omega : 15 + 1 ≤ rbuf.length),
    assignRaw_eq cs (by omega : 17 + 1 ≤ rbuf.length),
    assignRaw2_eq cs (by omega : 19 + 3 ≤ rbuf.length),
    assignRaw_eq cs (by omega : 23 + 1 ≤ rbuf.length),
    assignRaw_eq cs (by omega : 25 + 1 ≤ rbuf.length),
    assignRaw_eq cs (by omega : 27 + 1 ≤ rbuf.length),
    assignRaw_eq cs (by omega : 29 + 1 ≤ rbuf.length),
    assignRaw_eq cs (by omega : 31 + 1 ≤ rbuf.length),
    assignRaw_eq cs (by omega : 33 + 1 ≤ rbuf.length), fogClosed]

/-! ## Frame validation -/

theorem promote_eq_charLit (cs : Bool) (b : Byte) (c : Char) (hc : c.toNat < 128) :
    promote cs b = charLit c ↔ b.val = c.toNat := by
  unfold promote charLit
  have hb := b.isLt
  split_ifs with h
  · simp at h; constructor <;> intro h1 <;> omega
  · constructor <;> intro h1 <;> omega

theorem charEq_of_le (cs : Bool) {rbuf : Frame} {i : Nat} (h : i ≤ rbuf.length) (c : Char)
    (hc : c.toNat < 128) :
    charEq cs rbuf i c = some (decide ((byteAt rbuf i).val = c.toNat)) := by
  simp [charEq, charAt_of_le h, promote_eq_charLit cs _ c hc]

theorem cAnd_some (a b : Bool) : cAnd (some a) (some b) = some (a && b) := by
  cases a <;> rfl

theorem tagCheck_eq (cs : Bool) {rbuf : Frame} (h : 8 ≤ rbuf.length) :
    tagCheck cs rbuf = some (decide (hasBinTag rbuf)) := by
  unfold tagCheck hasBinTag
  rw [charEq_of_le cs (by omega : 5 ≤ rbuf.length) 'B' (by decide),
    charEq_of_le cs (by omega : 6 ≤ rbuf.length) 'I' (by decide),
    charEq_of_le cs (by omega : 7 ≤ rbuf.length) 'N' (by decide),
    charEq_of_le cs h ',' (by decide)]
  simp only [cAnd_some, Bool.decide_and, Bool.and_assoc]

theorem loopBody_of_not_tag {α : Type} [Field α] (M : CMath α) (cs use_fog : Bool) (now : Time)
    (st : State α) {rbuf : Frame} (h : 8 ≤ rbuf.length) (ht : ¬ hasBinTag rbuf) :
    loopBody M cs use_fog now st rbuf = some (st, []) := by
  simp [loopBody, tagCheck_eq cs h, ht]

theorem loopBody_noFog {α : Type} [Field α] (M : CMath α) (cs : Bool) (now : Time)
    (st : State α) {rbuf : Frame} (h : 26 ≤ rbuf.length) (ht : hasBinTag rbuf) :
    loopBody M cs false now st rbuf
      = some ({ noFogClosed M rbuf { st with imu_msg := { st.imu_msg with stamp := now } }
                with ready := true },
          [(noFogClosed M rbuf { st with imu_msg := { st.imu_msg with stamp := now } }).imu_msg]) := by
  simp [loopBody, tagCheck_eq cs (by omega : 8 ≤ rbuf.length), ht, decodeNoFog_eq M cs h]

theorem loopBody_fog {α : Type} [Field α] (M : CMath α) (cs : Bool) (now : Time)
    (st : State α) {rbuf : Frame} (h : 34 ≤ rbuf.length) (ht : hasBinTag rbuf) :
    loopBody M cs true now st rbuf
      = some ({ fogClosed M rbuf { st with imu_msg := { st.imu_msg with stamp := now } }
                with ready := true },
          [(fogClosed M rbuf { st with imu_msg := { st.imu_msg with stamp := now } }).imu_msg]) := by
  simp [loopBody, tagCheck_eq cs (by omega : 8 ≤ rbuf.length), ht, decodeFog_eq M cs h]

/-! ## Claims -/

/-- C1: for every frame of at least 9 bytes the tag check of line 159 succeeds exactly when the
bytes at offsets 5, 6, 7, 8 are `'B'`, `'I'`, `'N'`, `','`; it is defined (no out-of-range
access), gives the same answer for any two frames that agree at these four offsets whatever the
signedness of `char`, and under either value of `use_fog` the iteration skips the frame exactly
when the tag is absent. -/
theorem C1_tagCheck_iff (cs : Bool) (rbuf : Frame) (h : 9 ≤ rbuf.length) :
    (tagCheck cs rbuf = some true ↔ hasBinTag rbuf) ∧
    (tagCheck cs rbuf = some false ↔ ¬ hasBinTag rbuf) ∧
    (∀ (cs2 : Bool) (rbuf2 : Frame), 9 ≤ rbuf2.length →
      (∀ k, 5 ≤ k → k ≤ 8 → byteAt rbuf2 k = byteAt rbuf k) →
      tagCheck cs2 rbuf2 = tagCheck cs rbuf) ∧
    (∀ (M : CMath ℝ) (use_fog : Bool) (now : Time) (st : State ℝ),
      loopBody M cs use_fog now st rbuf = some (st, []) ↔ ¬ hasBinTag rbuf) := by
  have h8 : 8 ≤ rbuf.length := by omega
  refine ⟨?_, ?_, ?_, ?_⟩
  · simp [tagCheck_eq cs h8]
  · simp [tagCheck_eq cs h8]
  · intro cs2 rbuf2 h2 hk
    rw [tagCheck_eq cs h8, tagCheck_eq cs2 (by omega : 8 ≤ rbuf2.length)]
    simp [hasBinTag, hk 5 (by omega) (by omega), hk 6 (by omega) (by omega),
      hk 7 (by omega) (by omega), hk 8 (by omega) (by omega)]
  · intro M use_fog now st
    constructor
    · intro hl ht
      simp only [loopBody, tagCheck_eq cs h8, ht, decide_True] at hl
      split at hl
      · exact absurd hl (by simp)
      · simp at hl
    · exact loopBody_of_not_tag M cs use_fog now st h8

/-- Witness for C1 on the frames `stdFrame` (tag present) and `ascFrame` (tag absent). -/
theorem C1_tagCheck_iff_witness :
    tagCheck true stdFrame = some true ∧ tagCheck true ascFrame = some false := by
  have h1 := C1_tagCheck_iff true stdFrame (by decide)
  have h2 := C1_tagCheck_iff true ascFrame (by decide)
  exact ⟨h1.1.2 (by decide), h2.2.1.2 (by decide)⟩

/-- C2: a frame of at least 9 bytes without the `"BIN,"` tag at offset 5 is skipped: the
iteration is defined, hands nothing to `pub.publish`, and returns the state it was given (record
with timestamp, status word, ready flag and every local), under either variant. -/
theorem C2_rejected_frame_no_effect {α : Type} [Field α] (M : CMath α) (cs use_fog : Bool)
    (now : Time) (st : State α) (rbuf : Frame) (h : 9 ≤ rbuf.length) (ht : ¬ hasBinTag rbuf) :
    loopBody M cs use_fog now st rbuf = some (st, []) :=
  loopBody_of_not_tag M cs use_fog now st (by omega) ht

/-- Witness for C2: the line `$TSC,ASC,50` leaves the initial state in place. -/
theorem C2_rejected_frame_no_effect_witness :
    loopBody (⟨Real.pi, Real.cos, Real.sin⟩ : CMath ℝ) true false 5
        (initState ⟨Real.pi, Real.cos, Real.sin⟩ 0 0 0) ascFrame
      = some (initState ⟨Real.pi, Real.cos, Real.sin⟩ 0 0 0, []) :=
  C2_rejected_frame_no_effect _ true false 5 _ ascFrame (by decide) (by decide)


/-- C3: in the variant without FOG an accepted frame of at least 27 bytes is decoded and
published with angular velocity `s16(15), s16(17), s16(19)` times `(200 / 2^15) * pi / 180` and
linear acceleration `s16(21), s16(23), s16(25)` times `100 / 2^15`, as real numbers; a raw
angular-rate field `0x40 0x00` gives `5 * pi / 9`, which lies between 1.7453 and 1.7454. -/
theorem C3_standard_scaling (cs : Bool) (now : Time) (st : State ℝ) (rbuf : Frame)
    (h : 27 ≤ rbuf.length) (ht : hasBinTag rbuf) :
    ∃ st1 msg, loopBody ⟨Real.pi, Real.cos, Real.sin⟩ cs false now st rbuf = some (st1, [msg]) ∧
      st1.imu_msg = msg ∧
      msg.angular_velocity.x = (s16At rbuf 15 : ℝ) * ((200 / 2 ^ 15) * Real.pi / 180) ∧
      msg.angular_velocity.y = (s16At rbuf 17 : ℝ) * ((200 / 2 ^ 15) * Real.pi / 180) ∧
      msg.angular_velocity.z = (s16At rbuf 19 : ℝ) * ((200 / 2 ^ 15) * Real.pi / 180) ∧
      msg.linear_acceleration.x = (s16At rbuf 21 : ℝ) * (100 / 2 ^ 15) ∧
      msg.linear_acceleration.y = (s16At rbuf 23 : ℝ) * (100 / 2 ^ 15) ∧
      msg.linear_acceleration.z = (s16At rbuf 25 : ℝ) * (100 / 2 ^ 15) ∧
      (byteAt rbuf 15 = 0x40 → byteAt rbuf 16 = 0x00 →
        s16At rbuf 15 = 16384 ∧ msg.angular_velocity.x = 5 * Real.pi / 9 ∧
        1.7453 < msg.angular_velocity.x ∧ msg.angular_velocity.x < 1.7454) := by
  rw [loopBody_noFog _ cs now st (by omega) ht]
  refine ⟨_, _, rfl, rfl, ?_, ?_, ?_, ?_, ?_, ?_, ?_⟩
  · simp only [noFogClosed, gyroScale16]; ring
  · simp only [noFogClosed, gyroScale16]; ring
  · simp only [noFogClosed, gyroScale16]; ring
  · simp only [noFogClosed, accScale]
  · simp only [noFogClosed, accScale]
  · simp only [noFogClosed, accScale]
  · intro h15 h16
    have hs : s16At rbuf 15 = 16384 := by
      simp only [s16At, h15, h16]; decide
    have hx : gyroScale16 (⟨Real.pi, Real.cos, Real.sin⟩ : CMath ℝ) (s16At rbuf 15)
        = 5 * Real.pi / 9 := by
      rw [hs]; simp only [gyroScale16]; push_cast; ring
    refine ⟨hs, ?_, ?_, ?_⟩
    · simpa only [noFogClosed] using hx
    · simp only [noFogClosed, hx]
      have := Real.pi_gt_d6
      linarith
    · simp only [noFogClosed, hx]
      have := Real.pi_lt_d6
      linarith

/-- Witness for C3 on `stdFrame`, whose first angular-rate field is `0x40 0x00`. -/
theorem C3_standard_scaling_witness :
    ∃ st1 msg, loopBody ⟨Real.pi, Real.cos, Real.sin⟩ true false 7
        (initState ⟨Real.pi, Real.cos, Real.sin⟩ 0 0 0) stdFrame = some (st1, [msg]) ∧
      msg.angular_velocity.x = 5 * Real.pi / 9 := by
  obtain ⟨st1, msg, h1, _, _, _, _, _, _, _, h9⟩ :=
    C3_standard_scaling true 7 (initState ⟨Real.pi, Real.cos, Real.sin⟩ 0 0 0) stdFrame
      (by decide) (by decide)
  exact ⟨st1, msg, h1, (h9 (by decide) (by decide)).2.1⟩


/-- C4: in the FOG variant an accepted frame of at least 35 bytes is decoded and published with
angular velocity x, y equal to `s16(15)`, `s16(17)` times `(200 / 2^15) * pi / 180`, angular
velocity z equal to the signed 32-bit field of bytes 19..22 times `(200 / 2^31) * pi / 180`, and
linear acceleration `s16(23), s16(25), s16(27)` times `100 / 2^15`, as real numbers. -/
theorem C4_extended_scaling (cs : Bool) (now : Time) (st : State ℝ) (rbuf : Frame)
    (h : 35 ≤ rbuf.length) (ht : hasBinTag rbuf) :
    ∃ st1 msg, loopBody ⟨Real.pi, Real.cos, Real.sin⟩ cs true now st rbuf = some (st1, [msg]) ∧
      st1.imu_msg = msg ∧
      msg.angular_velocity.x = (s16At rbuf 15 : ℝ) * ((200 / 2 ^ 15) * Real.pi / 180) ∧
      msg.angular_velocity.y = (s16At rbuf 17 : ℝ) * ((200 / 2 ^ 15) * Real.pi / 180) ∧
      msg.angular_velocity.z = (s32At rbuf 19 : ℝ) * ((200 / 2 ^ 31) * Real.pi / 180) ∧
      msg.linear_acceleration.x = (s16At rbuf 23 : ℝ) * (100 / 2 ^ 15) ∧
      msg.linear_acceleration.y = (s16At rbuf 25 : ℝ) * (100 / 2 ^ 15) ∧
      msg.linear_acceleration.z = (s16At rbuf 27 : ℝ) * (100 / 2 ^ 15) := by
  rw [loopBody_fog _ cs now st (by omega) ht]
  refine ⟨_, _, rfl, rfl, ?_, ?_, ?_, ?_, ?_, ?_⟩
  · simp only [fogClosed, gyroScale16]; ring
  · simp only [fogClosed, gyroScale16]; ring
  · simp only [fogClosed, gyroScale32]; ring
  · simp only [fogClosed, accScale]
  · simp only [fogClosed, accScale]
  · simp only [fogClosed, accScale]

/-- Witness for C4 on `fogFrame`: the 32-bit rate field `0x40000000` gives `5 * pi / 9`. -/
theorem C4_extended_scaling_witness :
    ∃ st1 msg, loopBody ⟨Real.pi, Real.cos, Real.sin⟩ true true 7
        (initState ⟨Real.pi, Real.cos, Real.sin⟩ 0 0 0) fogFrame = some (st1, [msg]) ∧
      msg.angular_velocity.z = 5 * Real.pi / 9 := by
  obtain ⟨st1, msg, h1, _, _, _, hz, _⟩ :=
    C4_extended_scaling true 7 (initState ⟨Real.pi, Real.cos, Real.sin⟩ 0 0 0) fogFrame
      (by decide) (by decide)
  refine ⟨st1, msg, h1, ?_⟩
  rw [hz, show s32At fogFrame 19 = 2 ^ 30 by decide]
  push_cast
  ring

/-- C5: in the FOG variant, after an accepted frame of at least 35 bytes the Euler angles are
`roll = r * (180 / 2^15) * pi / 180`, `pitch = -(p * (180 / 2^15) * pi / 180)` and
`yaw = -(y * (180 / 2^15) * pi / 180)` for the signed 16-bit fields `r, p, y` at offsets 29, 31,
33, and the published orientation is `setRPY` of exactly these three angles; for the raw value
`-32768` the negated pitch or yaw is `+pi`. -/
theorem C5_euler_angles (cs : Bool) (now : Time) (st : State ℝ) (rbuf : Frame)
    (h : 35 ≤ rbuf.length) (ht : hasBinTag rbuf) :
    ∃ st1 msg, loopBody ⟨Real.pi, Real.cos, Real.sin⟩ cs true now st rbuf = some (st1, [msg]) ∧
      st1.roll = (s16At rbuf 29 : ℝ) * (180 / 2 ^ 15) * Real.pi / 180 ∧
      st1.pitch = -((s16At rbuf 31 : ℝ) * (180 / 2 ^ 15) * Real.pi / 180) ∧
      st1.yaw = -((s16At rbuf 33 : ℝ) * (180 / 2 ^ 15) * Real.pi / 180) ∧
      msg.orientation = setRPY ⟨Real.pi, Real.cos, Real.sin⟩ st1.roll st1.pitch st1.yaw ∧
      (s16At rbuf 31 = -32768 → st1.pitch = Real.pi) ∧
      (s16At rbuf 33 = -32768 → st1.yaw = Real.pi) := by
  rw [loopBody_fog _ cs now st (by omega) ht]
  refine ⟨_, _, rfl, ?_, ?_, ?_, ?_, ?_, ?_⟩
  · simp only [fogClosed, angleScale]
  · simp only [fogClosed, negAngleScale]; push_cast; ring
  · simp only [fogClosed, negAngleScale]; push_cast; ring
  · simp only [fogClosed]
  · intro hp
    simp only [fogClosed, negAngleScale, hp]; push_cast; ring
  · intro hy
    simp only [fogClosed, negAngleScale, hy]; push_cast; ring

/-- Witness for C5 on `fogFrame`, whose pitch field is `0x8000`: the pitch is `+pi`. -/
theorem C5_euler_angles_witness :
    ∃ st1 msg, loopBody ⟨Real.pi, Real.cos, Real.sin⟩ true true 7
        (initState ⟨Real.pi, Real.cos, Real.sin⟩ 0 0 0) fogFrame = some (st1, [msg]) ∧
      st1.pitch = Real.pi := by
  obtain ⟨st1, msg, h1, _, _, _, _, hp, _⟩ :=
    C5_euler_angles true 7 (initState ⟨Real.pi, Real.cos, Real.sin⟩ 0 0 0) fogFrame
      (by decide) (by decide)
  exact ⟨st1, msg, h1, hp (by decide)⟩

theorem setRPY_norm (roll pitch yaw : ℝ) :
    (setRPY ⟨Real.pi, Real.cos, Real.sin⟩ roll pitch yaw).x ^ 2
      + (setRPY ⟨Real.pi, Real.cos, Real.sin⟩ roll pitch yaw).y ^ 2
      + (setRPY ⟨Real.pi, Real.cos, Real.sin⟩ roll pitch yaw).z ^ 2
      + (setRPY ⟨Real.pi, Real.cos, Real.sin⟩ roll pitch yaw).w ^ 2 = 1 := by
  have h1 := Real.sin_sq_add_cos_sq (roll / 2)
  have h2 := Real.sin_sq_add_cos_sq (pitch / 2)
  have h3 := Real.sin_sq_add_cos_sq (yaw / 2)
  simp only [setRPY, Quaternion.mul, qx, qy, qz]
  linear_combination
    ((Real.sin (pitch / 2) ^ 2 + Real.cos (pitch / 2) ^ 2)
        * (Real.sin (yaw / 2) ^ 2 + Real.cos (yaw / 2) ^ 2)) * h1
      + (Real.sin (yaw / 2) ^ 2 + Real.cos (yaw / 2) ^ 2) * h2 + h3

theorem setRPY_zero :
    (setRPY (⟨Real.pi, Real.cos, Real.sin⟩ : CMath ℝ) 0 0 0).x = 0 ∧
    (setRPY (⟨Real.pi, Real.cos, Real.sin⟩ : CMath ℝ) 0 0 0).y = 0 ∧
    (setRPY (⟨Real.pi, Real.cos, Real.sin⟩ : CMath ℝ) 0 0 0).z = 0 ∧
    (setRPY (⟨Real.pi, Real.cos, Real.sin⟩ : CMath ℝ) 0 0 0).w = 1 := by
  simp [setRPY, Quaternion.mul, qx, qy, qz]

/-- C6: in the FOG variant the orientation published for an accepted frame of at least 35 bytes
has `x^2 + y^2 + z^2 + w^2 = 1` over the reals, so its norm is within `1e-9` of 1; when the three
raw attitude fields are zero it is `(0, 0, 0, 1)`. -/
theorem C6_orientation_unit (cs : Bool) (now : Time) (st : State ℝ) (rbuf : Frame)
    (h : 35 ≤ rbuf.length) (ht : hasBinTag rbuf) :
    ∃ st1 msg, loopBody ⟨Real.pi, Real.cos, Real.sin⟩ cs true now st rbuf = some (st1, [msg]) ∧
      st1.imu_msg = msg ∧
      msg.orientation.x ^ 2 + msg.orientation.y ^ 2 + msg.orientation.z ^ 2
        + msg.orientation.w ^ 2 = 1 ∧
      |Real.sqrt (msg.orientation.x ^ 2 + msg.orientation.y ^ 2 + msg.orientation.z ^ 2
        + msg.orientation.w ^ 2) - 1| ≤ 1e-9 ∧
      (s16At rbuf 29 = 0 → s16At rbuf 31 = 0 → s16At rbuf 33 = 0 →
        msg.orientation.x = 0 ∧ msg.orientation.y = 0 ∧ msg.orientation.z = 0 ∧
        msg.orientation.w = 1) := by
  rw [loopBody_fog _ cs now st (by omega) ht]
  refine ⟨_, _, rfl, rfl, ?_, ?_, ?_⟩
  · simp only [fogClosed]
    exact setRPY_norm _ _ _
  · simp only [fogClosed]
    rw [setRPY_norm, Real.sqrt_one]
    norm_num
  · intro hr hp hy
    simp only [fogClosed, hr, hp, hy, angleScale, negAngleScale]
    simpa using setRPY_zero

/-- Witness for C6 on `fogLevelFrame`: unit norm and the identity orientation. -/
theorem C6_orientation_unit_witness :
    ∃ st1 msg, loopBody ⟨Real.pi, Real.cos, Real.sin⟩ true true 7
        (initState ⟨Real.pi, Real.cos, Real.sin⟩ 0 0 0) fogLevelFrame = some (st1, [msg]) ∧
      msg.orientation.x ^ 2 + msg.orientation.y ^ 2 + msg.orientation.z ^ 2
        + msg.orientation.w ^ 2 = 1 ∧ msg.orientation.w = 1 := by
  obtain ⟨st1, msg, h1, _, hn, _, hz⟩ :=
    C6_orientation_unit true 7 (initState ⟨Real.pi, Real.cos, Real.sin⟩ 0 0 0) fogLevelFrame
      (by decide) (by decide)
  exact ⟨st1, msg, h1, hn, (hz (by decide) (by decide) (by decide)).2.2.2⟩


/-! ## Orientation in the variant without FOG -/

theorem setRPY_components {α : Type} [Field α] (M : CMath α) (roll pitch yaw : α) :
    setRPY M roll pitch yaw =
      ⟨M.sin (roll / 2) * M.cos (pitch / 2) * M.cos (yaw / 2)
          - M.cos (roll / 2) * M.sin (pitch / 2) * M.sin (yaw / 2),
        M.cos (roll / 2) * M.sin (pitch / 2) * M.cos (yaw / 2)
          + M.sin (roll / 2) * M.cos (pitch / 2) * M.sin (yaw / 2),
        M.cos (roll / 2) * M.cos (pitch / 2) * M.sin (yaw / 2)
          - M.sin (roll / 2) * M.sin (pitch / 2) * M.cos (yaw / 2),
        M.cos (roll / 2) * M.cos (pitch / 2) * M.cos (yaw / 2)
          + M.sin (roll / 2) * M.sin (pitch / 2) * M.sin (yaw / 2)⟩ := by
  simp only [setRPY, Quaternion.mul, qx, qy, qz, Quaternion.mk.injEq]
  refine ⟨?_, ?_, ?_, ?_⟩ <;> ring

theorem exec_keepsOrientation {α : Type} (l : List (Stmt α))
    (hl : ∀ s ∈ l, KeepsOrientation s) : KeepsOrientation (exec l) := by
  induction l with
  | nil =>
    intro st st1 h
    simp only [exec, Option.some.injEq] at h
    rw [h]
  | cons s rest ih =>
    intro st st1 h
    simp only [exec] at h
    split at h
    · exact absurd h (by simp)
    · next st2 hs =>
      have h1 := hl s (List.mem_cons_self _ _) st st2 hs
      have h2 := ih (fun t ht => hl t (List.mem_cons_of_mem _ ht)) st2 st1 h
      rw [h2, h1]

theorem assign_keepsOrientation {α : Type} (f : State α → State α)
    (hf : ∀ st, (f st).imu_msg.orientation = st.imu_msg.orientation) :
    KeepsOrientation (assign f) := by
  intro st st1 h
  simp only [assign, Option.some.injEq] at h
  rw [← h, hf]

theorem assignRaw_keepsOrientation {α : Type} (cs : Bool) (rbuf : Frame) (i : Nat) :
    KeepsOrientation (assignRaw cs rbuf i : Stmt α) := by
  intro st st1 h
  simp only [assignRaw, Option.bind_eq_some, Option.map_eq_some'] at h
  obtain ⟨_, _, _, _, rfl⟩ := h
  rfl

theorem assignStatus_keepsOrientation {α : Type} (cs : Bool) (rbuf : Frame) :
    KeepsOrientation (assignStatus cs rbuf : Stmt α) := by
  intro st st1 h
  simp only [assignStatus, Option.bind_eq_some, Option.map_eq_some'] at h
  obtain ⟨_, _, _, _, rfl⟩ := h
  rfl

theorem assignCounterNoFog_keepsOrientation {α : Type} (cs : Bool) (rbuf : Frame) :
    KeepsOrientation (assignCounterNoFog cs rbuf : Stmt α) := by
  intro st st1 h
  simp only [assignCounterNoFog, Option.bind_eq_some, Option.map_eq_some'] at h
  obtain ⟨_, _, _, _, rfl⟩ := h
  rfl

theorem decodeNoFog_keepsOrientation {α : Type} [Field α] (M : CMath α) (cs : Bool)
    (rbuf : Frame) : KeepsOrientation (decodeNoFog M cs rbuf) := by
  unfold decodeNoFog
  apply exec_keepsOrientation
  intro s hs
  simp only [List.mem_cons, List.mem_singleton, List.not_mem_nil, or_false] at hs
  rcases hs with rfl | rfl | rfl | rfl | rfl | rfl | rfl | rfl | rfl | rfl | rfl | rfl | rfl | rfl
  · exact assignCounterNoFog_keepsOrientation cs rbuf
  · exact assignStatus_keepsOrientation cs rbuf
  · exact assignRaw_keepsOrientation cs rbuf 15
  · exact assign_keepsOrientation _ (fun _ => rfl)
  · exact assignRaw_keepsOrientation cs rbuf 17
  · exact assign_keepsOrientation _ (fun _ => rfl)
  · exact assignRaw_keepsOrientation cs rbuf 19
  · exact assign_keepsOrientation _ (fun _ => rfl)
  · exact assignRaw_keepsOrientation cs rbuf 21
  · exact assign_keepsOrientation _ (fun _ => rfl)
  · exact assignRaw_keepsOrientation cs rbuf 23
  · exact assign_keepsOrientation _ (fun _ => rfl)
  · exact assignRaw_keepsOrientation cs rbuf 25
  · exact assign_keepsOrientation _ (fun _ => rfl)

theorem loopBody_noFog_orientation {α : Type} [Field α] (M : CMath α) (cs : Bool) (now : Time)
    (st : State α) (rbuf : Frame) (r : State α × List (Imu α))
    (h : loopBody M cs false now st rbuf = some r) :
    r.1.imu_msg.orientation = st.imu_msg.orientation ∧
      ∀ m ∈ r.2, m.orientation = st.imu_msg.orientation := by
  unfold loopBody at h
  split at h
  · exact absurd h (by simp)
  · simp only [Option.some.injEq] at h
    subst h
    exact ⟨rfl, by simp⟩
  · simp only [Bool.false_eq_true, if_false] at h
    split at h
    · exact absurd h (by simp)
    · next st2 hd =>
      simp only [Option.some.injEq] at h
      subst h
      have hk := decodeNoFog_keepsOrientation M cs rbuf _ _ hd
      simp only at hk
      refine ⟨hk, ?_⟩
      intro m hm
      simp only [List.mem_singleton] at hm
      rw [hm]; exact hk

theorem loopBody_defined {α : Type} [Field α] (M : CMath α) (cs use_fog : Bool) (now : Time)
    (st : State α) (rbuf : Frame) (h : readable use_fog rbuf) :
    ∃ r, loopBody M cs use_fog now st rbuf = some r := by
  by_cases ht : hasBinTag rbuf
  · have hlen := h.2 ht
    cases use_fog with
    | false =>
      simp only [Bool.false_eq_true, if_false] at hlen
      exact ⟨_, loopBody_noFog M cs now st (by omega) ht⟩
    | true =>
      simp only [if_true] at hlen
      exact ⟨_, loopBody_fog M cs now st (by omega) ht⟩
  · exact ⟨_, loopBody_of_not_tag M cs use_fog now st (by have := h.1; omega) ht⟩

theorem run_defined {α : Type} [Field α] (M : CMath α) (cs use_fog : Bool) (evs : List Event) :
    ∀ st : State α, readableEvents use_fog evs → ∃ r, run M cs use_fog st evs = some r := by
  induction evs with
  | nil => intro st _; exact ⟨_, rfl⟩
  | cons e es ih =>
    intro st hr
    cases e with
    | frame now rbuf =>
      obtain ⟨r, hr1⟩ := loopBody_defined M cs use_fog now st rbuf hr.1
      obtain ⟨r2, hr2⟩ := ih r.1 hr.2
      exact ⟨(r2.1, ⟨r.2 ++ r2.2.published, [] ++ r2.2.reports⟩),
        by simp only [run, step, hr1, Option.map_some', hr2]⟩
    | tick now =>
      obtain ⟨r2, hr2⟩ := ih (diagnostic_timer_callback now st).1 hr
      exact ⟨(r2.1, ⟨[] ++ r2.2.published, (diagnostic_timer_callback now st).2 ++ r2.2.reports⟩),
        by simp only [run, step, hr2]⟩

theorem tick_orientation {α : Type} (now : Time) (st : State α) :
    (diagnostic_timer_callback now st).1.imu_msg.orientation = st.imu_msg.orientation := by
  unfold diagnostic_timer_callback
  split <;> rfl

theorem run_noFog_orientation {α : Type} [Field α] (M : CMath α) (cs : Bool) (q : Quaternion α)
    (evs : List Event) :
    ∀ (st : State α) (r : State α × Output α), st.imu_msg.orientation = q →
      run M cs false st evs = some r →
      r.1.imu_msg.orientation = q ∧ ∀ m ∈ r.2.published, m.orientation = q := by
  induction evs with
  | nil =>
    intro st r hq h
    simp only [run, Option.some.injEq] at h
    subst h
    exact ⟨hq, by simp⟩
  | cons e es ih =>
    intro st r hq h
    simp only [run] at h
    split at h
    · exact absurd h (by simp)
    · next st1 o1 hs =>
      split at h
      · exact absurd h (by simp)
      · next st2 o2 hr =>
        simp only [Option.some.injEq] at h
        subst h
        have key : st1.imu_msg.orientation = q ∧ ∀ m ∈ o1.published, m.orientation = q := by
          cases e with
          | frame now rbuf =>
            simp only [step, Option.map_eq_some'] at hs
            obtain ⟨r1, hl, he⟩ := hs
            have := loopBody_noFog_orientation M cs now st rbuf r1 hl
            simp only [Prod.mk.injEq] at he
            obtain ⟨rfl, rfl⟩ := he
            exact ⟨this.1.trans hq, fun m hm => (this.2 m hm).trans hq⟩
          | tick now =>
            simp only [step, Option.some.injEq, Prod.mk.injEq] at hs
            obtain ⟨rfl, rfl⟩ := hs
            exact ⟨(tick_orientation now st).trans hq, by simp⟩
        have rest := ih st1 (st2, o2) key.1 hr
        refine ⟨rest.1, ?_⟩
        intro m hm
        simp only [List.mem_append] at hm
        rcases hm with hm | hm
        · exact key.2 m hm
        · exact rest.2 m hm

/-- C7: without FOG the orientation stays `(0, 0, 0, 1)`.  From the initial state, for every
sequence of frames and diagnostics ticks, a run that is defined ends with the stored orientation
`(0, 0, 0, 1)` and has published only records with that orientation; and the run is defined
whenever every frame is long enough for the accesses made to it. -/
theorem C7_standard_orientation_identity {α : Type} [Field α] (M : CMath α) (cs : Bool)
    (counter0 : Nat) (raw0 raw1 : Int) (evs : List Event) :
    (∀ r, run M cs false (initState M counter0 raw0 raw1) evs = some r →
      r.1.imu_msg.orientation = ⟨0, 0, 0, 1⟩ ∧
        ∀ m ∈ r.2.published, m.orientation = ⟨0, 0, 0, 1⟩) ∧
    (readableEvents false evs →
      ∃ r, run M cs false (initState M counter0 raw0 raw1) evs = some r) :=
  ⟨fun r h => run_noFog_orientation M cs ⟨0, 0, 0, 1⟩ evs _ r rfl h,
    run_defined M cs false evs _⟩

/-- Witness for C7: an accepted frame, a tick, a rejected frame and a second accepted frame. -/
theorem C7_standard_orientation_identity_witness :
    ∃ r, run (⟨Real.pi, Real.cos, Real.sin⟩ : CMath ℝ) true false
        (initState ⟨Real.pi, Real.cos, Real.sin⟩ 0 0 0)
        [Event.frame 5 stdFrame, Event.tick 6, Event.frame 7 ascFrame, Event.frame 8 stdFrame]
        = some r ∧
      r.1.imu_msg.orientation = ⟨0, 0, 0, 1⟩ ∧ r.2.published.length = 2 := by
  have hC := C7_standard_orientation_identity (⟨Real.pi, Real.cos, Real.sin⟩ : CMath ℝ) true 0 0 0
    [Event.frame 5 stdFrame, Event.tick 6, Event.frame 7 ascFrame, Event.frame 8 stdFrame]
  obtain ⟨r, hr⟩ := hC.2 (by simp only [readableEvents]; decide)
  refine ⟨r, hr, (hC.1 r hr).1, ?_⟩
  have ha : ¬ hasBinTag ascFrame := by decide
  have hs : hasBinTag stdFrame := by decide
  have hl : 26 ≤ stdFrame.length := by decide
  have hl2 : 8 ≤ ascFrame.length := by decide
  simp only [run, step, loopBody_noFog _ true _ _ hl hs, loopBody_of_not_tag _ true false _ _ hl2 ha,
    Option.map_some'] at hr
  simp only [Option.some.injEq] at hr
  subst hr
  rfl


/-! ## Counter, status word and health checks -/

/-- C8 (as stated) fails on `fogFrame`: the counter stored by the FOG branch is
`0x00070000`, not the four-byte value `0x00078001` of bytes 11..14. -/
theorem C8_counter_four_bytes_counterexample :
    ∃ st1 out, loopBody ⟨Real.pi, Real.cos, Real.sin⟩ false true 7
        (initState ⟨Real.pi, Real.cos, Real.sin⟩ 0 0 0) fogFrame = some (st1, out) ∧
      st1.counter ≠ (byteAt fogFrame 11).val * 2 ^ 24 + (byteAt fogFrame 12).val * 2 ^ 16
        + (byteAt fogFrame 13).val * 2 ^ 8 + (byteAt fogFrame 14).val := by
  refine ⟨_, _, loopBody_fog _ false 7 _ (by decide) (by decide), ?_⟩
  simp only [fogClosed]
  decide

/-- C8 (amended): in the FOG variant, after an accepted frame of at least 35 bytes the counter is
`b11 * 2^24 + b12 * 2^16` for the frame bytes 11 and 12 taken as unsigned; bytes 13 and 14 are
read into the status word and do not enter the counter. -/
theorem C8_counter_two_bytes {α : Type} [Field α] (M : CMath α) (cs : Bool) (now : Time)
    (st : State α) (rbuf : Frame) (h : 35 ≤ rbuf.length) (ht : hasBinTag rbuf) :
    ∃ st1 out, loopBody M cs true now st rbuf = some (st1, out) ∧
      st1.counter = (byteAt rbuf 11).val * 2 ^ 24 + (byteAt rbuf 12).val * 2 ^ 16 ∧
      st1.imu_status = s16At rbuf 13 :=
  ⟨_, _, loopBody_fog M cs now st (by omega) ht, rfl, rfl⟩

/-- Witness for the amended C8 on `fogFrame`: the counter is `7 * 2^16`. -/
theorem C8_counter_two_bytes_witness :
    ∃ st1 out, loopBody ⟨Real.pi, Real.cos, Real.sin⟩ false true 7
        (initState ⟨Real.pi, Real.cos, Real.sin⟩ 0 0 0) fogFrame = some (st1, out) ∧
      st1.counter = 458752 := by
  obtain ⟨st1, out, h1, h2, _⟩ :=
    C8_counter_two_bytes (⟨Real.pi, Real.cos, Real.sin⟩ : CMath ℝ) false 7
      (initState ⟨Real.pi, Real.cos, Real.sin⟩ 0 0 0) fogFrame (by decide) (by decide)
  exact ⟨st1, out, h1, h2.trans (by decide)⟩

theorem check_bit_error_cases {α : Type} (st : State α) :
    (st.imu_status >>> (15 : Nat) ≠ 0 ∧ check_bit_error st = ⟨ERROR, "Built-In Test error"⟩) ∨
    (st.imu_status >>> (15 : Nat) = 0 ∧ check_bit_error st = ⟨OK, "OK"⟩) := by
  unfold check_bit_error
  by_cases h : st.imu_status >>> (15 : Nat) = 0
  · right; exact ⟨h, by simp [h]⟩
  · left; exact ⟨h, by simp [h]⟩

theorem bit_error_iff_neg {α : Type} (st : State α)
    (hs : -32768 ≤ st.imu_status ∧ st.imu_status ≤ 32767) :
    (check_bit_error st = ⟨ERROR, "Built-In Test error"⟩ ↔ st.imu_status < 0) ∧
    (check_bit_error st = ⟨OK, "OK"⟩ ↔ ¬ st.imu_status < 0) := by
  have hne : (⟨ERROR, "Built-In Test error"⟩ : Summary) ≠ ⟨OK, "OK"⟩ := by decide
  have hsh : st.imu_status >>> (15 : Nat) = st.imu_status / 32768 := by
    rw [Int.shiftRight_eq_div_pow]; norm_num
  rcases check_bit_error_cases st with ⟨h1, h2⟩ | ⟨h1, h2⟩
  · rw [hsh] at h1
    have : st.imu_status < 0 := by omega
    rw [h2]
    exact ⟨⟨fun _ => this, fun _ => rfl⟩, ⟨fun h => absurd h hne, fun h => absurd this h⟩⟩
  · rw [hsh] at h1
    have : ¬ st.imu_status < 0 := by omega
    rw [h2]
    exact ⟨⟨fun h => absurd h.symm hne, fun h => absurd h this⟩, ⟨fun _ => this, fun _ => rfl⟩⟩

theorem s16_neg_iff (hi lo : Byte) : s16 hi lo < 0 ↔ 128 ≤ hi.val := by
  unfold s16
  have h1 := hi.isLt
  have h2 := lo.isLt
  split_ifs <;> omega

theorem s16_range (hi lo : Byte) : -32768 ≤ s16 hi lo ∧ s16 hi lo ≤ 32767 := by
  unfold s16
  have h1 := hi.isLt
  have h2 := lo.isLt
  split_ifs <;> omega

/-- C9: for every 16-bit status word, `check_bit_error` reports ERROR with the message
"Built-In Test error" exactly when the word is negative, which is exactly when bit 15 of its
two's-complement pattern is set, and reports OK otherwise; after an accepted frame of sufficient
length, in either variant, it reports ERROR exactly when byte 13 of the frame is at least `0x80`. -/
theorem C9_bit_error_iff_bit15 {α : Type} [Field α] (st : State α)
    (hs : -32768 ≤ st.imu_status ∧ st.imu_status ≤ 32767) :
    (check_bit_error st = ⟨ERROR, "Built-In Test error"⟩ ↔ st.imu_status < 0) ∧
    (st.imu_status < 0 ↔ (st.imu_status % 2 ^ 16).toNat.testBit 15 = true) ∧
    (check_bit_error st = ⟨OK, "OK"⟩ ↔ ¬ st.imu_status < 0) ∧
    (∀ (M : CMath α) (cs use_fog : Bool) (now : Time) (rbuf : Frame), hasBinTag rbuf →
      (if use_fog then 35 else 27) ≤ rbuf.length →
      ∃ st1 out, loopBody M cs use_fog now st rbuf = some (st1, out) ∧
        (check_bit_error st1 = ⟨ERROR, "Built-In Test error"⟩ ↔ 128 ≤ (byteAt rbuf 13).val) ∧
        (check_bit_error st1 = ⟨OK, "OK"⟩ ↔ (byteAt rbuf 13).val < 128)) := by
  refine ⟨(bit_error_iff_neg st hs).1, ?_, (bit_error_iff_neg st hs).2, ?_⟩
  · rw [Nat.testBit_to_div_mod]
    simp only [decide_eq_true_eq]
    omega
  · intro M cs use_fog now rbuf ht hlen
    have key : ∀ st1 : State α, st1.imu_status = s16At rbuf 13 →
        (check_bit_error st1 = ⟨ERROR, "Built-In Test error"⟩ ↔ 128 ≤ (byteAt rbuf 13).val) ∧
        (check_bit_error st1 = ⟨OK, "OK"⟩ ↔ (byteAt rbuf 13).val < 128) := by
      intro st1 h1
      have hr := s16_range (byteAt rbuf 13) (byteAt rbuf (13 + 1))
      have hn := s16_neg_iff (byteAt rbuf 13) (byteAt rbuf (13 + 1))
      have hb := bit_error_iff_neg st1 (by rw [h1]; exact hr)
      rw [h1] at hb
      simp only [s16At] at hb
      exact ⟨hb.1.trans hn, hb.2.trans (by rw [hn]; omega)⟩
    cases use_fog with
    | false =>
      simp only [Bool.false_eq_true, if_false] at hlen
      exact ⟨_, _, loopBody_noFog M cs now st (by omega) ht, key _ rfl⟩
    | true =>
      simp only [if_true] at hlen
      exact ⟨_, _, loopBody_fog M cs now st (by omega) ht, key _ rfl⟩

/-- Witness for C9: after `fogFrame`, whose byte 13 is `0x80`, the check reports ERROR. -/
theorem C9_bit_error_iff_bit15_witness :
    ∃ st1 out, loopBody ⟨Real.pi, Real.cos, Real.sin⟩ true true 7
        (initState ⟨Real.pi, Real.cos, Real.sin⟩ 0 0 0) fogFrame = some (st1, out) ∧
      check_bit_error st1 = ⟨ERROR, "Built-In Test error"⟩ := by
  obtain ⟨st1, out, h1, h2, _⟩ :=
    (C9_bit_error_iff_bit15 (initState (⟨Real.pi, Real.cos, Real.sin⟩ : CMath ℝ) 0 0 0)
      (by simp [initState])).2.2.2 ⟨Real.pi, Real.cos, Real.sin⟩ true true 7 fogFrame
      (by decide) (by decide)
  exact ⟨st1, out, h1, h2.2 (by decide)⟩

/-- C10: `check_connection` reports ERROR with the message "Message timeout" exactly when the
age `now - stamp` of the stored record exceeds one second (`10 ^ 9` ns) strictly, and OK
otherwise; an age of exactly one second reports OK. -/
theorem C10_connection_iff_older_than_1s {α : Type} (now : Time) (st : State α) :
    (check_connection now st = ⟨ERROR, "Message timeout"⟩ ↔
      (now : Int) - (st.imu_msg.stamp : Int) > 10 ^ 9) ∧
    (check_connection now st = ⟨OK, "OK"⟩ ↔ ¬ (now : Int) - (st.imu_msg.stamp : Int) > 10 ^ 9) ∧
    ((now : Int) - (st.imu_msg.stamp : Int) = 10 ^ 9 → check_connection now st = ⟨OK, "OK"⟩) := by
  have hne : (⟨ERROR, "Message timeout"⟩ : Summary) ≠ ⟨OK, "OK"⟩ := by decide
  unfold check_connection
  by_cases h : (now : Int) - (st.imu_msg.stamp : Int) > 10 ^ 9
  · simp only [h, if_true, true_iff, not_true_eq_false, iff_false]
    exact ⟨trivial, hne, fun h2 => by omega⟩
  · simp only [h, if_false, iff_false, not_false_eq_true, iff_true]
    exact ⟨hne.symm, trivial, fun _ => trivial⟩


/-- C11: the two health checks are independent.  `check_bit_error` gives equal results on states
with equal status words, whatever their timestamps; `check_connection` gives equal results on
states with equal timestamps at the same current time, whatever their status words; and each of
the four combinations of OK and ERROR is produced by a state the driver reaches. -/
theorem C11_checks_independent :
    (∀ (st1 st2 : State ℝ), st1.imu_status = st2.imu_status →
      check_bit_error st1 = check_bit_error st2) ∧
    (∀ (now : Time) (st1 st2 : State ℝ), st1.imu_msg.stamp = st2.imu_msg.stamp →
      check_connection now st1 = check_connection now st2) ∧
    (∃ st1 out, loopBody ⟨Real.pi, Real.cos, Real.sin⟩ true false 7
        (initState ⟨Real.pi, Real.cos, Real.sin⟩ 0 0 0) stdFrame = some (st1, out) ∧
      check_bit_error st1 = ⟨OK, "OK"⟩ ∧ check_connection 8 st1 = ⟨OK, "OK"⟩ ∧
      check_connection 2000000007 st1 = ⟨ERROR, "Message timeout"⟩) ∧
    (∃ st1 out, loopBody ⟨Real.pi, Real.cos, Real.sin⟩ true true 7
        (initState ⟨Real.pi, Real.cos, Real.sin⟩ 0 0 0) fogFrame = some (st1, out) ∧
      check_bit_error st1 = ⟨ERROR, "Built-In Test error"⟩ ∧
      check_connection 8 st1 = ⟨OK, "OK"⟩ ∧
      check_connection 2000000007 st1 = ⟨ERROR, "Message timeout"⟩) := by
  refine ⟨?_, ?_, ?_, ?_⟩
  · intro st1 st2 h
    simp only [check_bit_error, h]
  · intro now st1 st2 h
    simp only [check_connection, h]
  · refine ⟨_, _, loopBody_noFog _ true 7 _ (by decide : 26 ≤ stdFrame.length)
        (by decide : hasBinTag stdFrame), ?_, ?_, ?_⟩
    · simp only [check_bit_error, noFogClosed, show s16At stdFrame 13 = 0 by decide]
      decide
    · simp only [check_connection, noFogClosed]
      decide
    · simp only [check_connection, noFogClosed]
      decide
  · refine ⟨_, _, loopBody_fog _ true 7 _ (by decide : 34 ≤ fogFrame.length)
        (by decide : hasBinTag fogFrame), ?_, ?_, ?_⟩
    · simp only [check_bit_error, fogClosed, show s16At fogFrame 13 = -32767 by decide]
      decide
    · simp only [check_connection, fogClosed]
      decide
    · simp only [check_connection, fogClosed]
      decide

/-- Witness for C11: the initial state and the same state with another timestamp get the same
built-in-test report, and with another status word the same connection report. -/
theorem C11_checks_independent_witness :
    check_bit_error (initState (⟨Real.pi, Real.cos, Real.sin⟩ : CMath ℝ) 0 0 0)
      = check_bit_error { initState (⟨Real.pi, Real.cos, Real.sin⟩ : CMath ℝ) 0 0 0 with
          imu_msg := { (initState (⟨Real.pi, Real.cos, Real.sin⟩ : CMath ℝ) 0 0 0).imu_msg with
            stamp := 99 } } ∧
    check_connection 5 (initState (⟨Real.pi, Real.cos, Real.sin⟩ : CMath ℝ) 0 0 0)
      = check_connection 5 { initState (⟨Real.pi, Real.cos, Real.sin⟩ : CMath ℝ) 0 0 0 with
          imu_status := -1 } :=
  ⟨C11_checks_independent.1 _ _ rfl, C11_checks_independent.2.1 5 _ _ rfl⟩

/-- C12 (as stated) fails in the initial state, where `ready` is false: the timer callback
produces no report at all. -/
theorem C12_tick_reports_counterexample :
    (diagnostic_timer_callback 5
      (initState (⟨Real.pi, Real.cos, Real.sin⟩ : CMath ℝ) 0 0 0)).2 = [] := by
  simp [diagnostic_timer_callback, initState]

/-- C12 (amended): when `ready` is set, one invocation of the timer callback produces exactly
one `imu_bit_error` report and one `imu_connection` report, computed from the current status word
and from the age of the current record timestamp; when `ready` is not set it produces none. -/
theorem C12_tick_reports_when_ready {α : Type} (now : Time) (st : State α) :
    (st.ready = true → (diagnostic_timer_callback now st).2
      = [("imu_bit_error", check_bit_error st), ("imu_connection", check_connection now st)]) ∧
    (st.ready = false → (diagnostic_timer_callback now st).2 = []) := by
  constructor <;> intro h <;> simp [diagnostic_timer_callback, h]

/-- Witness for the amended C12: after `stdFrame` the flag is set and a tick reports twice. -/
theorem C12_tick_reports_when_ready_witness :
    ∃ st1 out, loopBody ⟨Real.pi, Real.cos, Real.sin⟩ true false 7
        (initState ⟨Real.pi, Real.cos, Real.sin⟩ 0 0 0) stdFrame = some (st1, out) ∧
      (diagnostic_timer_callback 8 st1).2
        = [("imu_bit_error", check_bit_error st1), ("imu_connection", check_connection 8 st1)] :=
  ⟨_, _, loopBody_noFog _ true 7 _ (by decide) (by decide),
    (C12_tick_reports_when_ready 8 _).1 rfl⟩

/-- C13 (as stated) fails after an accepted frame: the timer callback changes the `ready`
flag from true to false. -/
theorem C13_tick_read_only_counterexample :
    ∃ st1 out, loopBody ⟨Real.pi, Real.cos, Real.sin⟩ true false 7
        (initState ⟨Real.pi, Real.cos, Real.sin⟩ 0 0 0) stdFrame = some (st1, out) ∧
      st1.ready = true ∧ (diagnostic_timer_callback 8 st1).1.ready = false :=
  ⟨_, _, loopBody_noFog _ true 7 _ (by decide) (by decide), rfl, rfl⟩

/-- C13 (amended): one invocation of the timer callback leaves the status word, the record with
its timestamp and every local of the loop as they were; the only variable it writes is `ready`,
which is false afterwards. -/
theorem C13_tick_clears_ready_only {α : Type} (now : Time) (st : State α) :
    (diagnostic_timer_callback now st).1 = { st with ready := false } := by
  unfold diagnostic_timer_callback
  by_cases h : st.ready = true
  · simp [h]
  · have h2 : st.ready = false := by simpa using h
    simp only [h2, Bool.false_eq_true, if_false]
    cases st
    simp_all

/-- C14: the code has no length check.  On the 10-byte frame `$TSC,BIN,` + LF the branch without
FOG reads `rbuf[11]`, outside the frame (undefined behaviour, `none`), instead of discarding the
frame; and on the 26-byte frame `stdFrame26` it decodes and publishes a record. -/
theorem C14_short_frame_not_discarded :
    loopBody ⟨Real.pi, Real.cos, Real.sin⟩ true false 7
      (initState ⟨Real.pi, Real.cos, Real.sin⟩ 0 0 0) shortBinFrame = none ∧
    loopBody ⟨Real.pi, Real.cos, Real.sin⟩ true true 7
      (initState ⟨Real.pi, Real.cos, Real.sin⟩ 0 0 0) shortBinFrame = none ∧
    ∃ st1 msg, loopBody ⟨Real.pi, Real.cos, Real.sin⟩ true false 7
      (initState ⟨Real.pi, Real.cos, Real.sin⟩ 0 0 0) stdFrame26 = some (st1, [msg]) := by
  have ht : tagCheck true shortBinFrame = some true := by decide
  have hc : charAt shortBinFrame 11 = none := by decide
  refine ⟨?_, ?_, _, _, loopBody_noFog _ true 7 _ (by decide) (by decide)⟩
  · simp [loopBody, ht, decodeNoFog, exec, assignCounterNoFog, hc]
  · simp [loopBody, ht, decodeFog, exec, assignCounterFog, hc]

/-- C15: on the 2-byte frame CR LF the tag check reads `rbuf[5]`, outside the frame (undefined
behaviour, `none`), so the iteration is not a clean rejection. -/
theorem C15_tag_check_reads_past_short_frame :
    tagCheck true crlfFrame = none ∧ tagCheck false crlfFrame = none ∧
    charAt crlfFrame 5 = none ∧
    loopBody ⟨Real.pi, Real.cos, Real.sin⟩ true false 7
      (initState ⟨Real.pi, Real.cos, Real.sin⟩ 0 0 0) crlfFrame = none := by
  have h1 : tagCheck true crlfFrame = none := by decide
  refine ⟨h1, by decide, by decide, ?_⟩
  simp [loopBody, h1]

theorem tagCheck_short (cs : Bool) (rbuf : Frame) :
    (rbuf.length < 5 → tagCheck cs rbuf = none) ∧
    (5 ≤ rbuf.length → rbuf.length < 9 → tagCheck cs rbuf = some false) := by
  constructor
  · intro h
    have : charAt rbuf 5 = none := by simp [charAt]; omega
    simp [tagCheck, charEq, this, cAnd]
  · intro h5 h9
    have e5 := charEq_of_le cs (by omega : 5 ≤ rbuf.length) 'B' (by decide)
    have hz : ∀ (c : Char), c.toNat ≠ 0 →
        decide ((byteAt rbuf rbuf.length).val = c.toNat) = false := by
      intro c hc
      have : byteAt rbuf rbuf.length = 0 := by simp [byteAt, List.getD]
      simp [this]; omega
    have hlen : rbuf.length = 5 ∨ rbuf.length = 6 ∨ rbuf.length = 7 ∨ rbuf.length = 8 := by
      omega
    rcases hlen with h | h | h | h
    · have := hz 'B' (by decide)
      rw [h] at this
      rw [this] at e5
      unfold tagCheck; rw [e5]
      rfl
    · have e6 := charEq_of_le cs (by omega : 6 ≤ rbuf.length) 'I' (by decide)
      have := hz 'I' (by decide)
      rw [h] at this
      rw [this] at e6
      unfold tagCheck; rw [e5, e6]
      cases decide ((byteAt rbuf 5).val = 'B'.toNat) <;> rfl
    · have e6 := charEq_of_le cs (by omega : 6 ≤ rbuf.length) 'I' (by decide)
      have e7 := charEq_of_le cs (by omega : 7 ≤ rbuf.length) 'N' (by decide)
      have := hz 'N' (by decide)
      rw [h] at this
      rw [this] at e7
      unfold tagCheck; rw [e5, e6, e7]
      cases decide ((byteAt rbuf 5).val = 'B'.toNat) <;>
        cases decide ((byteAt rbuf 6).val = 'I'.toNat) <;> rfl
    · have := hz ',' (by decide)
      rw [h] at this
      rw [tagCheck_eq cs (by omega : 8 ≤ rbuf.length)]
      simp only [hasBinTag, Option.some.injEq, decide_eq_false_iff_not, not_and]
      intro _ _ _
      simpa using this

/-- C16: the timestamp of a decoded record is the clock value read on line 161.  For any two
accepted frames for which the iteration is defined, of any content and under either variant,
processed at the same clock value `c`, the stored and the published timestamps are all `c`. -/
theorem C16_stamp_is_host_clock {α : Type} [Field α] (M : CMath α) (cs1 cs2 uf1 uf2 : Bool)
    (c : Time) (st1 st2 : State α) (rbuf1 rbuf2 : Frame)
    (t1 : hasBinTag rbuf1) (h1 : (if uf1 then 34 else 26) ≤ rbuf1.length)
    (t2 : hasBinTag rbuf2) (h2 : (if uf2 then 34 else 26) ≤ rbuf2.length) :
    ∃ s1 m1 s2 m2, loopBody M cs1 uf1 c st1 rbuf1 = some (s1, [m1]) ∧
      loopBody M cs2 uf2 c st2 rbuf2 = some (s2, [m2]) ∧
      s1.imu_msg.stamp = c ∧ m1.stamp = c ∧ s2.imu_msg.stamp = c ∧ m2.stamp = c := by
  have key : ∀ (cs uf : Bool) (st : State α) (rbuf : Frame), hasBinTag rbuf →
      (if uf then 34 else 26) ≤ rbuf.length →
      ∃ s m, loopBody M cs uf c st rbuf = some (s, [m]) ∧ s.imu_msg.stamp = c ∧ m.stamp = c := by
    intro cs uf st rbuf t h
    cases uf with
    | false =>
      simp only [Bool.false_eq_true, if_false] at h
      exact ⟨_, _, loopBody_noFog M cs c st h t, rfl, rfl⟩
    | true =>
      simp only [if_true] at h
      exact ⟨_, _, loopBody_fog M cs c st h t, rfl, rfl⟩
  obtain ⟨s1, m1, e1, a1, b1⟩ := key cs1 uf1 st1 rbuf1 t1 h1
  obtain ⟨s2, m2, e2, a2, b2⟩ := key cs2 uf2 st2 rbuf2 t2 h2
  exact ⟨s1, m1, s2, m2, e1, e2, a1, b1, a2, b2⟩

/-- Witness for C16: `stdFrame` without FOG and `fogFrame` with FOG, both at clock value 7. -/
theorem C16_stamp_is_host_clock_witness :
    ∃ s1 m1 s2 m2, loopBody ⟨Real.pi, Real.cos, Real.sin⟩ true false 7
        (initState ⟨Real.pi, Real.cos, Real.sin⟩ 0 0 0) stdFrame = some (s1, [m1]) ∧
      loopBody ⟨Real.pi, Real.cos, Real.sin⟩ false true 7
        (initState ⟨Real.pi, Real.cos, Real.sin⟩ 1 2 3) fogFrame = some (s2, [m2]) ∧
      s1.imu_msg.stamp = 7 ∧ m1.stamp = 7 ∧ s2.imu_msg.stamp = 7 ∧ m2.stamp = 7 :=
  C16_stamp_is_host_clock (⟨Real.pi, Real.cos, Real.sin⟩ : CMath ℝ) true false false true 7 _ _
    stdFrame fogFrame (by decide) (by decide) (by decide) (by decide)


/-! ## Signed and unsigned reading of the frame bytes -/

theorem extractSpec16_eq_s16 (hi lo : Byte) : extractSpec16 hi lo = s16 hi lo := by
  unfold extractSpec16 s16 signExtend
  have h1 := hi.isLt
  have h2 := lo.isLt
  rw [Nat.shiftLeft_eq, Nat.mul_comm, ← Nat.mul_add_lt_is_or h2]
  split_ifs <;> omega

theorem extractSpec32_eq_s32 (b0 b1 b2 b3 : Byte) :
    extractSpec32 b0 b1 b2 b3 = s32 b0 b1 b2 b3 := by
  unfold extractSpec32 s32 signExtend
  have h0 := b0.isLt
  have h1 := b1.isLt
  have h2 := b2.isLt
  have h3 := b3.isLt
  rw [Nat.shiftLeft_eq, Nat.shiftLeft_eq, Nat.shiftLeft_eq, Nat.mul_comm b0.val,
    Nat.mul_comm b1.val, Nat.mul_comm b2.val, or4_eq_add]
  split_ifs <;> omega

/-- C18: the source's 16-bit field expression, evaluated with frame bytes read as signed `char`
values, equals the specified extraction `(byte[offset] << 8) | byte[offset+1]` on unsigned bytes
sign-extended from 16 bits, for every pair of bytes; so does its evaluation with unsigned `char`,
and the same holds for the four-byte 32-bit expression. -/
theorem C18_signed_char_refines_spec :
    (∀ hi lo : Byte, field16 true hi lo = extractSpec16 hi lo ∧
      field16 false hi lo = extractSpec16 hi lo ∧ field16 true hi lo = field16 false hi lo) ∧
    (∀ b0 b1 b2 b3 : Byte, field32 true b0 b1 b2 b3 = extractSpec32 b0 b1 b2 b3 ∧
      field32 false b0 b1 b2 b3 = extractSpec32 b0 b1 b2 b3 ∧
      field32 true b0 b1 b2 b3 = field32 false b0 b1 b2 b3) := by
  constructor
  · intro hi lo
    rw [field16_eq_s16, field16_eq_s16, extractSpec16_eq_s16]
    exact ⟨rfl, rfl, rfl⟩
  · intro b0 b1 b2 b3
    rw [field32_eq_s32, field32_eq_s32, extractSpec32_eq_s32]
    exact ⟨rfl, rfl, rfl⟩

/-! ## Full-scale ranges -/

theorem s32_range (b0 b1 b2 b3 : Byte) :
    -2147483648 ≤ s32 b0 b1 b2 b3 ∧ s32 b0 b1 b2 b3 ≤ 2147483647 := by
  unfold s32
  have h0 := b0.isLt
  have h1 := b1.isLt
  have h2 := b2.isLt
  have h3 := b3.isLt
  split_ifs <;> omega

theorem gyroScale16_range (r : Int) (hr : -32768 ≤ r ∧ r ≤ 32767) :
    -(200 * Real.pi / 180) ≤ gyroScale16 (⟨Real.pi, Real.cos, Real.sin⟩ : CMath ℝ) r ∧
      gyroScale16 (⟨Real.pi, Real.cos, Real.sin⟩ : CMath ℝ) r < 200 * Real.pi / 180 := by
  have hpi := Real.pi_pos
  have h1 : (-32768 : ℝ) ≤ (r : ℝ) := by exact_mod_cast hr.1
  have h2 : (r : ℝ) ≤ 32767 := by exact_mod_cast hr.2
  simp only [gyroScale16]
  constructor <;> nlinarith

theorem gyroScale32_range (r : Int) (hr : -2147483648 ≤ r ∧ r ≤ 2147483647) :
    -(200 * Real.pi / 180) ≤ gyroScale32 (⟨Real.pi, Real.cos, Real.sin⟩ : CMath ℝ) r ∧
      gyroScale32 (⟨Real.pi, Real.cos, Real.sin⟩ : CMath ℝ) r < 200 * Real.pi / 180 := by
  have hpi := Real.pi_pos
  have h1 : (-2147483648 : ℝ) ≤ (r : ℝ) := by exact_mod_cast hr.1
  have h2 : (r : ℝ) ≤ 2147483647 := by exact_mod_cast hr.2
  simp only [gyroScale32]
  constructor <;> nlinarith

theorem accScale_range (r : Int) (hr : -32768 ≤ r ∧ r ≤ 32767) :
    (-100 : ℝ) ≤ accScale r ∧ (accScale r : ℝ) < 100 := by
  have h1 : (-32768 : ℝ) ≤ (r : ℝ) := by exact_mod_cast hr.1
  have h2 : (r : ℝ) ≤ 32767 := by exact_mod_cast hr.2
  simp only [accScale]
  constructor <;> nlinarith

theorem angleScale_range (r : Int) (hr : -32768 ≤ r ∧ r ≤ 32767) :
    -Real.pi ≤ angleScale (⟨Real.pi, Real.cos, Real.sin⟩ : CMath ℝ) r ∧
      angleScale (⟨Real.pi, Real.cos, Real.sin⟩ : CMath ℝ) r < Real.pi := by
  have hpi := Real.pi_pos
  have h1 : (-32768 : ℝ) ≤ (r : ℝ) := by exact_mod_cast hr.1
  have h2 : (r : ℝ) ≤ 32767 := by exact_mod_cast hr.2
  simp only [angleScale]
  constructor <;> nlinarith

theorem negAngleScale_range (r : Int) (hr : -32768 ≤ r ∧ r ≤ 32767) :
    -Real.pi < negAngleScale (⟨Real.pi, Real.cos, Real.sin⟩ : CMath ℝ) r ∧
      negAngleScale (⟨Real.pi, Real.cos, Real.sin⟩ : CMath ℝ) r ≤ Real.pi := by
  have hpi := Real.pi_pos
  have h1 : (-32768 : ℝ) ≤ (r : ℝ) := by exact_mod_cast hr.1
  have h2 : (r : ℝ) ≤ 32767 := by exact_mod_cast hr.2
  simp only [negAngleScale]
  push_cast
  constructor <;> nlinarith

/-- C19: every decoded value lies in its full-scale range.  For an accepted frame of sufficient
length, in either variant, each angular velocity component `w` has
`-200*pi/180 <= w < 200*pi/180` (the 32-bit z rate of the FOG variant included) and each linear
acceleration component `a` has `-100 <= a < 100`; with FOG, roll lies in `[-pi, pi)` and the
negated pitch and yaw lie in `(-pi, pi]`. -/
theorem C19_full_scale_ranges (cs use_fog : Bool) (now : Time) (st : State ℝ) (rbuf : Frame)
    (ht : hasBinTag rbuf) (h : (if use_fog then 35 else 27) ≤ rbuf.length) :
    ∃ st1 msg, loopBody ⟨Real.pi, Real.cos, Real.sin⟩ cs use_fog now st rbuf
        = some (st1, [msg]) ∧ st1.imu_msg = msg ∧
      (-(200 * Real.pi / 180) ≤ msg.angular_velocity.x ∧
        msg.angular_velocity.x < 200 * Real.pi / 180) ∧
      (-(200 * Real.pi / 180) ≤ msg.angular_velocity.y ∧
        msg.angular_velocity.y < 200 * Real.pi / 180) ∧
      (-(200 * Real.pi / 180) ≤ msg.angular_velocity.z ∧
        msg.angular_velocity.z < 200 * Real.pi / 180) ∧
      (-100 ≤ msg.linear_acceleration.x ∧ msg.linear_acceleration.x < 100) ∧
      (-100 ≤ msg.linear_acceleration.y ∧ msg.linear_acceleration.y < 100) ∧
      (-100 ≤ msg.linear_acceleration.z ∧ msg.linear_acceleration.z < 100) ∧
      (use_fog = true →
        (-Real.pi ≤ st1.roll ∧ st1.roll < Real.pi) ∧
        (-Real.pi < st1.pitch ∧ st1.pitch ≤ Real.pi) ∧
        (-Real.pi < st1.yaw ∧ st1.yaw ≤ Real.pi)) := by
  have r16 : ∀ k, -32768 ≤ s16At rbuf k ∧ s16At rbuf k ≤ 32767 := fun k => s16_range _ _
  have r32 : ∀ k, -2147483648 ≤ s32At rbuf k ∧ s32At rbuf k ≤ 2147483647 :=
    fun k => s32_range _ _ _ _
  cases use_fog with
  | false =>
    simp only [Bool.false_eq_true, if_false] at h
    refine ⟨_, _, loopBody_noFog _ cs now st (by omega) ht, rfl, ?_, ?_, ?_, ?_, ?_, ?_, ?_⟩
    · exact gyroScale16_range _ (r16 15)
    · exact gyroScale16_range _ (r16 17)
    · exact gyroScale16_range _ (r16 19)
    · exact accScale_range _ (r16 21)
    · exact accScale_range _ (r16 23)
    · exact accScale_range _ (r16 25)
    · intro hf; exact absurd hf (by decide)
  | true =>
    simp only [if_true] at h
    refine ⟨_, _, loopBody_fog _ cs now st (by omega) ht, rfl, ?_, ?_, ?_, ?_, ?_, ?_, ?_⟩
    · exact gyroScale16_range _ (r16 15)
    · exact gyroScale16_range _ (r16 17)
    · exact gyroScale32_range _ (r32 19)
    · exact accScale_range _ (r16 23)
    · exact accScale_range _ (r16 25)
    · exact accScale_range _ (r16 27)
    · intro _
      exact ⟨angleScale_range _ (r16 29), negAngleScale_range _ (r16 31),
        negAngleScale_range _ (r16 33)⟩

/-- Witness for C19 on `fogFrame`: the pitch, decoded from `0x8000`, is at most `pi`. -/
theorem C19_full_scale_ranges_witness :
    ∃ st1 msg, loopBody ⟨Real.pi, Real.cos, Real.sin⟩ true true 7
        (initState ⟨Real.pi, Real.cos, Real.sin⟩ 0 0 0) fogFrame = some (st1, [msg]) ∧
      msg.angular_velocity.z < 200 * Real.pi / 180 ∧ st1.pitch ≤ Real.pi := by
  obtain ⟨st1, msg, h1, _, _, _, hz, _, _, _, ha⟩ :=
    C19_full_scale_ranges true true 7 (initState ⟨Real.pi, Real.cos, Real.sin⟩ 0 0 0) fogFrame
      (by decide) (by decide)
  exact ⟨st1, msg, h1, hz.2, (ha rfl).2.1.2⟩


/-! ## Round trip of the scale formulas -/

theorem quantize_core (s v : ℝ) (hs : 0 < s) (mn mx : Int)
    (h1 : (mn : ℝ) * s ≤ v) (h2 : v ≤ (mx : ℝ) * s) :
    mn ≤ quantize s v mn mx ∧ quantize s v mn mx ≤ mx ∧
      |(quantize s v mn mx : ℝ) * s - v| ≤ s ∧
      ((∃ n : ℤ, v = (n : ℝ) * s) → (quantize s v mn mx : ℝ) * s = v) := by
  have hx1 : (mn : ℝ) ≤ v / s := by rw [le_div_iff₀ hs]; exact h1
  have hx2 : v / s ≤ (mx : ℝ) := by rw [div_le_iff₀ hs]; exact h2
  have hr := abs_le.mp (abs_sub_round (v / s))
  have hlo : mn ≤ round (v / s) := by
    by_contra hc
    have h3 : round (v / s) + 1 ≤ mn := by omega
    have h4 : ((round (v / s) : Int) : ℝ) + 1 ≤ (mn : ℝ) := by exact_mod_cast h3
    linarith [hr.1, hr.2]
  have hhi : round (v / s) ≤ mx := by
    by_contra hc
    have h3 : mx + 1 ≤ round (v / s) := by omega
    have h4 : (mx : ℝ) + 1 ≤ ((round (v / s) : Int) : ℝ) := by exact_mod_cast h3
    linarith [hr.1, hr.2]
  have hq : quantize s v mn mx = round (v / s) := by
    unfold quantize
    rw [min_eq_right hhi, max_eq_right hlo]
  have hv : v / s * s = v := by field_simp
  rw [hq]
  refine ⟨hlo, hhi, ?_, ?_⟩
  · have e : ((round (v / s) : Int) : ℝ) * s - v = -((v / s - round (v / s)) * s) := by
      linear_combination hv
    rw [e, abs_neg, abs_mul, abs_of_pos hs]
    have := abs_sub_round (v / s)
    nlinarith
  · rintro ⟨n, hn⟩
    have : v / s = (n : ℝ) := by rw [hn]; field_simp
    rw [this, round_intCast, ← hn]

theorem s16At_of_carries {rbuf : Frame} {k : Nat} {r : Int} (hr : -32768 ≤ r ∧ r ≤ 32767)
    (hc : carries16 rbuf k r) : s16At rbuf k = r := by
  unfold s16At s16
  rw [hc.1, hc.2]
  simp only [byteOf]
  split_ifs <;> omega

theorem s32At_of_carries {rbuf : Frame} {k : Nat} {r : Int}
    (hr : -2147483648 ≤ r ∧ r ≤ 2147483647) (hc : carries32 rbuf k r) : s32At rbuf k = r := by
  unfold s32At s32
  rw [hc.1, hc.2.1, hc.2.2.1, hc.2.2.2]
  simp only [byteOf]
  split_ifs <;> omega

theorem roundTrip16 (s v : ℝ) (hs : 0 < s) (rbuf : Frame) (k : Nat)
    (h1 : ((-32768 : Int) : ℝ) * s ≤ v) (h2 : v ≤ ((32767 : Int) : ℝ) * s)
    (hc : carries16 rbuf k (quantize s v (-32768) 32767)) :
    |(s16At rbuf k : ℝ) * s - v| ≤ s ∧
      ((∃ n : ℤ, v = (n : ℝ) * s) → (s16At rbuf k : ℝ) * s = v) := by
  obtain ⟨a, b, c, d⟩ := quantize_core s v hs (-32768) 32767 h1 h2
  rw [s16At_of_carries ⟨a, b⟩ hc]
  exact ⟨c, d⟩

theorem roundTrip32 (s v : ℝ) (hs : 0 < s) (rbuf : Frame) (k : Nat)
    (h1 : ((-2147483648 : Int) : ℝ) * s ≤ v) (h2 : v ≤ ((2147483647 : Int) : ℝ) * s)
    (hc : carries32 rbuf k (quantize s v (-2147483648) 2147483647)) :
    |(s32At rbuf k : ℝ) * s - v| ≤ s ∧
      ((∃ n : ℤ, v = (n : ℝ) * s) → (s32At rbuf k : ℝ) * s = v) := by
  obtain ⟨a, b, c, d⟩ := quantize_core s v hs (-2147483648) 2147483647 h1 h2
  rw [s32At_of_carries ⟨a, b⟩ hc]
  exact ⟨c, d⟩

theorem roundTrip16_neg (s v : ℝ) (hs : 0 < s) (rbuf : Frame) (k : Nat)
    (h1 : ((-32768 : Int) : ℝ) * s ≤ -v) (h2 : -v ≤ ((32767 : Int) : ℝ) * s)
    (hc : carries16 rbuf k (quantize s (-v) (-32768) 32767)) :
    |((-(s16At rbuf k) : Int) : ℝ) * s - v| ≤ s ∧
      ((∃ n : ℤ, v = (n : ℝ) * s) → ((-(s16At rbuf k) : Int) : ℝ) * s = v) := by
  obtain ⟨c, d⟩ := roundTrip16 s (-v) hs rbuf k h1 h2 hc
  constructor
  · have e : ((-(s16At rbuf k) : Int) : ℝ) * s - v = -((s16At rbuf k : ℝ) * s - -v) := by
      push_cast; ring
    rw [e, abs_neg]
    exact c
  · rintro ⟨n, hn⟩
    have := d ⟨-n, by rw [hn]; push_cast; ring⟩
    push_cast
    linarith


theorem gyroScale16_eq {α : Type} [Field α] (M : CMath α) (r : Int) :
    gyroScale16 M r = (r : α) * ((200 / 2 ^ 15) * M.pi / 180) := by
  unfold gyroScale16; ring

theorem gyroScale32_eq {α : Type} [Field α] (M : CMath α) (r : Int) :
    gyroScale32 M r = (r : α) * ((200 / 2 ^ 31) * M.pi / 180) := by
  unfold gyroScale32; ring

theorem angleScale_eq {α : Type} [Field α] (M : CMath α) (r : Int) :
    angleScale M r = (r : α) * ((180 / 2 ^ 15) * M.pi / 180) := by
  unfold angleScale; ring

theorem negAngleScale_eq {α : Type} [Field α] (M : CMath α) (r : Int) :
    negAngleScale M r = ((-r : Int) : α) * ((180 / 2 ^ 15) * M.pi / 180) := by
  unfold negAngleScale; ring

theorem scale_pos (use_fog : Bool) (ch : Channel) :
    (0 : ℝ) < ch.scale ⟨Real.pi, Real.cos, Real.sin⟩ use_fog := by
  have := Real.pi_pos
  cases ch <;> cases use_fog <;> simp only [Channel.scale, Bool.false_eq_true, if_false, if_true]
    <;> positivity

/-- C17 (as stated) fails for the pitch channel.  The value `v = minRaw * s = -pi` lies in the
stated range and is a multiple of the scale `s`; `fogFrame` carries `v / s = -32768` in its pitch
field, yet the decoded pitch is `+pi`, which differs from `v` by more than `s`; and no raw value
at all decodes to `v`. -/
theorem C17_round_trip_pitch_counterexample :
    ∃ st1 out, loopBody ⟨Real.pi, Real.cos, Real.sin⟩ true true 7
        (initState ⟨Real.pi, Real.cos, Real.sin⟩ 0 0 0) fogFrame = some (st1, out) ∧
      carries16 fogFrame 31
        (quantize (Channel.scale (⟨Real.pi, Real.cos, Real.sin⟩ : CMath ℝ) true Channel.pitch)
          (((-32768 : Int) : ℝ) * Channel.scale ⟨Real.pi, Real.cos, Real.sin⟩ true Channel.pitch)
          (-32768) 32767) ∧
      ¬ |Channel.value st1 Channel.pitch
          - ((-32768 : Int) : ℝ) * Channel.scale ⟨Real.pi, Real.cos, Real.sin⟩ true Channel.pitch|
        ≤ Channel.scale ⟨Real.pi, Real.cos, Real.sin⟩ true Channel.pitch ∧
      ∀ r : Int, -32768 ≤ r → r ≤ 32767 →
        negAngleScale (⟨Real.pi, Real.cos, Real.sin⟩ : CMath ℝ) r
          ≠ ((-32768 : Int) : ℝ) * Channel.scale ⟨Real.pi, Real.cos, Real.sin⟩ true Channel.pitch := by
  have hpi := Real.pi_pos
  have hs := scale_pos true Channel.pitch
  have hq : quantize (Channel.scale (⟨Real.pi, Real.cos, Real.sin⟩ : CMath ℝ) true Channel.pitch)
      (((-32768 : Int) : ℝ) * Channel.scale ⟨Real.pi, Real.cos, Real.sin⟩ true Channel.pitch)
      (-32768) 32767 = -32768 := by
    unfold quantize
    rw [mul_div_assoc, div_self hs.ne', mul_one, round_intCast]
    decide
  refine ⟨_, _, loopBody_fog _ true 7 _ (by decide) (by decide), ?_, ?_, ?_⟩
  · rw [hq]; unfold carries16; decide
  · simp only [Channel.value, fogClosed, show s16At fogFrame 31 = -32768 by decide,
      negAngleScale_eq, Channel.scale]
    rw [not_le]
    push_cast
    rw [abs_of_pos (by nlinarith)]
    nlinarith
  · intro r h1 h2
    rw [negAngleScale_eq]
    simp only [Channel.scale]
    intro he
    have h3 : ((-r : Int) : ℝ) = ((-32768 : Int) : ℝ) := by
      have hne : ((180 : ℝ) / 2 ^ 15 * Real.pi / 180) ≠ 0 := by positivity
      exact mul_right_cancel₀ hne he
    have h4 : -r = -32768 := by exact_mod_cast h3
    omega

/-- C17 (amended): round trip of the scale formulas.  Take a channel decoded in the variant, with
scale `s` and raw range `[minRaw, maxRaw]`, and a value `v` such that `u` lies in
`[minRaw * s, maxRaw * s]`, where `u = v` for the angular rates, the accelerations and roll, and
`u = -v` for pitch and yaw, whose formula is negated.  If an accepted frame of sufficient length
carries at the channel's offset the big-endian two's-complement encoding of `u / s` rounded to an
integer in `[minRaw, maxRaw]`, then the decoded value is within `s` of `v`, and equals `v` when
`v` is an integer multiple of `s`. -/
theorem C17_round_trip_amended (cs use_fog : Bool) (now : Time) (st : State ℝ) (rbuf : Frame)
    (ch : Channel) (k : Nat) (v : ℝ) (ht : hasBinTag rbuf)
    (h : (if use_fog then 35 else 27) ≤ rbuf.length) (hk : ch.offset use_fog = some k)
    (hlo : (ch.minRaw use_fog : ℝ) * ch.scale ⟨Real.pi, Real.cos, Real.sin⟩ use_fog
      ≤ (if ch.negated then -v else v))
    (hhi : (if ch.negated then -v else v)
      ≤ (ch.maxRaw use_fog : ℝ) * ch.scale ⟨Real.pi, Real.cos, Real.sin⟩ use_fog)
    (hc : carries rbuf k (ch.width use_fog)
      (quantize (ch.scale ⟨Real.pi, Real.cos, Real.sin⟩ use_fog) (if ch.negated then -v else v)
        (ch.minRaw use_fog) (ch.maxRaw use_fog))) :
    ∃ st1 msg, loopBody ⟨Real.pi, Real.cos, Real.sin⟩ cs use_fog now st rbuf
        = some (st1, [msg]) ∧ st1.imu_msg = msg ∧
      |ch.value st1 - v| ≤ ch.scale ⟨Real.pi, Real.cos, Real.sin⟩ use_fog ∧
      ((∃ n : ℤ, v = (n : ℝ) * ch.scale ⟨Real.pi, Real.cos, Real.sin⟩ use_fog) →
        ch.value st1 = v) := by
  have hs := scale_pos use_fog ch
  cases use_fog with
  | false =>
    simp only [Bool.false_eq_true, if_false] at h
    have hL := loopBody_noFog (⟨Real.pi, Real.cos, Real.sin⟩ : CMath ℝ) cs now st
      (by omega : 26 ≤ rbuf.length) ht
    cases ch <;>
      simp only [Channel.offset, Channel.width, Channel.minRaw, Channel.maxRaw, Channel.negated,
        carries, Bool.false_eq_true, if_false, Option.some.injEq, reduceCtorEq,
        Nat.reduceEqDiff] at hk hlo hhi hc
    all_goals subst hk
    all_goals
      obtain ⟨c, d⟩ := roundTrip16 _ v hs rbuf _ hlo hhi hc
      refine ⟨_, _, hL, rfl, ?_, ?_⟩
    all_goals
      first
      | simpa only [Channel.value, noFogClosed, gyroScale16_eq, accScale, Channel.scale,
          Bool.false_eq_true, if_false] using c
      | simpa only [Channel.value, noFogClosed, gyroScale16_eq, accScale, Channel.scale,
          Bool.false_eq_true, if_false] using d
  | true =>
    simp only [if_true] at h
    have hL := loopBody_fog (⟨Real.pi, Real.cos, Real.sin⟩ : CMath ℝ) cs now st
      (by omega : 34 ≤ rbuf.length) ht
    cases ch <;>
      simp only [Channel.offset, Channel.width, Channel.minRaw, Channel.maxRaw, Channel.negated,
        carries, Bool.false_eq_true, if_false, if_true, Option.some.injEq, reduceCtorEq,
        Nat.reduceEqDiff] at hk hlo hhi hc
    all_goals subst hk
    case gyroZ =>
      obtain ⟨c, d⟩ := roundTrip32 _ v hs rbuf _ hlo hhi hc
      refine ⟨_, _, hL, rfl, ?_, ?_⟩
      · simpa only [Channel.value, fogClosed, gyroScale32_eq, Channel.scale, if_true] using c
      · simpa only [Channel.value, fogClosed, gyroScale32_eq, Channel.scale, if_true] using d
    case pitch =>
      obtain ⟨c, d⟩ := roundTrip16_neg _ v hs rbuf _ hlo hhi hc
      refine ⟨_, _, hL, rfl, ?_, ?_⟩
      · simpa only [Channel.value, fogClosed, negAngleScale_eq, Channel.scale] using c
      · simpa only [Channel.value, fogClosed, negAngleScale_eq, Channel.scale] using d
    case yaw =>
      obtain ⟨c, d⟩ := roundTrip16_neg _ v hs rbuf _ hlo hhi hc
      refine ⟨_, _, hL, rfl, ?_, ?_⟩
      · simpa only [Channel.value, fogClosed, negAngleScale_eq, Channel.scale] using c
      · simpa only [Channel.value, fogClosed, negAngleScale_eq, Channel.scale] using d
    all_goals
      obtain ⟨c, d⟩ := roundTrip16 _ v hs rbuf _ hlo hhi hc
      refine ⟨_, _, hL, rfl, ?_, ?_⟩
    all_goals
      first
      | simpa only [Channel.value, fogClosed, gyroScale16_eq, accScale, angleScale_eq,
          Channel.scale] using c
      | simpa only [Channel.value, fogClosed, gyroScale16_eq, accScale, angleScale_eq,
          Channel.scale] using d


theorem quantize_int_mul (s : ℝ) (hs : s ≠ 0) (n mn mx : Int) (h1 : mn ≤ n) (h2 : n ≤ mx) :
    quantize s ((n : ℝ) * s) mn mx = n := by
  unfold quantize
  rw [mul_div_assoc, div_self hs, mul_one, round_intCast, min_eq_right h2, max_eq_right h1]

/-- Witness for the amended C17: the roll field `0x2000` of `fogFrame` is the encoding of
`v = 8192 * s`, and the decoded roll is exactly `v`. -/
theorem C17_round_trip_amended_witness :
    ∃ st1 msg, loopBody ⟨Real.pi, Real.cos, Real.sin⟩ true true 7
        (initState ⟨Real.pi, Real.cos, Real.sin⟩ 0 0 0) fogFrame = some (st1, [msg]) ∧
      Channel.value st1 Channel.roll
        = ((8192 : Int) : ℝ) * Channel.scale ⟨Real.pi, Real.cos, Real.sin⟩ true Channel.roll := by
  have hs := scale_pos true Channel.roll
  obtain ⟨st1, msg, h1, _, _, hex⟩ :=
    C17_round_trip_amended true true 7 (initState ⟨Real.pi, Real.cos, Real.sin⟩ 0 0 0) fogFrame
      Channel.roll 29
      (((8192 : Int) : ℝ) * Channel.scale ⟨Real.pi, Real.cos, Real.sin⟩ true Channel.roll)
      (by decide) (by decide) rfl
      (by
        simp only [Channel.negated, Bool.false_eq_true, if_false]
        have : Channel.minRaw true Channel.roll = -32768 := by decide
        rw [this]
        have h8 : ((-32768 : Int) : ℝ) ≤ ((8192 : Int) : ℝ) := by norm_num
        exact mul_le_mul_of_nonneg_right h8 hs.le)
      (by
        simp only [Channel.negated, Bool.false_eq_true, if_false]
        have : Channel.maxRaw true Channel.roll = 32767 := by decide
        rw [this]
        have h8 : ((8192 : Int) : ℝ) ≤ ((32767 : Int) : ℝ) := by norm_num
        exact mul_le_mul_of_nonneg_right h8 hs.le)
      (by
        simp only [Channel.negated, Bool.false_eq_true, if_false]
        rw [quantize_int_mul _ hs.ne' 8192 _ _ (by decide) (by decide)]
        decide)
  exact ⟨st1, msg, h1, hex ⟨8192, rfl⟩⟩

end Tamagawa
